import Mathlib

/-!
Verification of the selection-constraint engine of `maker.py`
(ChooseSimulator).  The engine proper is the JavaScript embedded in the
HTML template of `maker.py`; the catalog-side parsing is the Python code
of the same file.  The definitions below are a shallow embedding of that
code:

* `parse_group_limits` embeds the Python method of the same name
  (regex search for `택(\d+)` plus `split('택')[0]`).
* `process_group_limits` embeds the group-limit table construction loop
  of `process_data`.
* `initState` embeds `initializeSimulator`'s state setup together with
  `initializeSelectionGroups`.
* `toggleCourse` embeds the JavaScript function `toggleCourse`.
* `cardIsDisabled` embeds the disabled-computation of `createCourseCard`.
* `updateSummary` embeds the credit accumulation of `updateSummary`.

JavaScript objects keyed by strings are embedded as association lists in
insertion order (`alookup` / `aset`); JavaScript `Array.push` is `++ [x]`,
`Array.filter` is `List.filter`, `Array.some`/`find` on a name is
`List.any` of a name test.
-/

namespace ChooseSim

/-- A course record, exactly the fields produced by `generate_course_data`
in `maker.py`.  `credits` is an `Int` (Python coerces unparseable values to
0 upstream; the engine trusts the value as given). -/
structure Course where
  semester : String
  type : String
  name : String
  credits : Int
  required : String
  subject : String
  group : String
  selection_group : Option String
  selection_limit : Option Nat
deriving DecidableEq, Repr

/-- One entry of the Python `group_limits` table (`process_data`). -/
structure LimitInfo where
  semester : String
  group_name : String
  limit : Nat
deriving DecidableEq, Repr

/-- Runtime data of one selection group in the JavaScript `selectionGroups`
map: static fields copied from `groupLimits` plus the mutable `selected`
array. -/
structure GroupInfo where
  semester : String
  name : String
  limit : Nat
  selected : List Course
deriving DecidableEq, Repr

/-- The engine's mutable state: `selectedCourses` (semester → chosen
courses, in insertion order) and `selectionGroups` (group key →
`GroupInfo`), both JavaScript objects embedded as association lists. -/
structure SimState where
  selectedCourses : List (String × List Course)
  selectionGroups : List (String × GroupInfo)
deriving DecidableEq, Repr

/-- The observable outcome of one `toggleCourse` call: either the function
runs to completion without any user-visible error (`ok` — this covers
successful selects, deselects, and the silent early `return` for unknown
courses), or it raises the quota `alert` carrying the group name and limit
and returns with the state untouched. -/
inductive ToggleOutcome where
  | ok
  | quotaAlert (groupName : String) (limit : Nat)
deriving DecidableEq, Repr

/-! ### Association-list helpers (JavaScript object embedding) -/

/-- Lookup in an association list (JS `obj[key]`). -/
def alookup {β : Type} (key : String) : List (String × β) → Option β
  | [] => none
  | (k, v) :: rest => if k = key then some v else alookup key rest

/-- Replace the value stored at `key` (JS `obj[key] = v` for a key that is
already present; on an absent key this is the identity — every use below
is on a present key, mirroring the JS code, which only ever assigns to
keys created at initialization). -/
def aset {β : Type} (key : String) (v : β) : List (String × β) → List (String × β)
  | [] => []
  | (k, w) :: rest => if k = key then (k, v) :: rest else (k, w) :: aset key v rest

@[simp] theorem alookup_nil {β : Type} (key : String) :
    alookup (β := β) key [] = none := rfl

theorem alookup_cons {β : Type} (key k : String) (v : β) (rest : List (String × β)) :
    alookup key ((k, v) :: rest) = if k = key then some v else alookup key rest := rfl

theorem aset_cons {β : Type} (key k : String) (v w : β) (rest : List (String × β)) :
    aset key v ((k, w) :: rest) =
      if k = key then (k, v) :: rest else (k, w) :: aset key v rest := rfl

theorem alookup_aset_self {β : Type} (key : String) (v : β) :
    ∀ l : List (String × β), alookup key (aset key v l) = (alookup key l).map (fun _ => v)
  | [] => rfl
  | (k, w) :: rest => by
    by_cases h : k = key
    · simp [aset_cons, alookup_cons, h]
    · simp [aset_cons, alookup_cons, h, alookup_aset_self key v rest]

theorem alookup_aset_ne {β : Type} {key key' : String} (h : key ≠ key') (v : β) :
    ∀ l : List (String × β), alookup key (aset key' v l) = alookup key l
  | [] => rfl
  | (k, w) :: rest => by
    by_cases hk : k = key'
    · have hne : ¬ key' = key := fun hh => h hh.symm
      simp [aset_cons, alookup_cons, hk, hne]
    · simp [aset_cons, alookup_cons, hk, alookup_aset_ne h v rest]

theorem aset_keys {β : Type} (key : String) (v : β) :
    ∀ l : List (String × β), (aset key v l).map Prod.fst = l.map Prod.fst
  | [] => rfl
  | (k, w) :: rest => by
    by_cases h : k = key
    · simp [aset_cons, h]
    · simp [aset_cons, h, aset_keys key v rest]

theorem aset_of_alookup_eq {β : Type} {key : String} {v : β} :
    ∀ {l : List (String × β)}, alookup key l = some v → aset key v l = l
  | [], h => by simp [alookup_nil] at h
  | (k, w) :: rest, h => by
    by_cases hk : k = key
    · subst hk
      simp [alookup_cons] at h
      simp [aset_cons, h]
    · simp [alookup_cons, hk] at h
      simp [aset_cons, hk, aset_of_alookup_eq h]

theorem alookup_isSome_of_mem_keys {β : Type} {key : String} :
    ∀ {l : List (String × β)}, key ∈ l.map Prod.fst → (alookup key l).isSome = true
  | [], h => by simp at h
  | (k, w) :: rest, h => by
    by_cases hk : k = key
    · simp [alookup_cons, hk]
    · have hmem : key ∈ rest.map Prod.fst := by
        simp only [List.map_cons, List.mem_cons] at h
        rcases h with h | h
        · exact absurd h.symm hk
        · exact h
      simp [alookup_cons, hk, alookup_isSome_of_mem_keys hmem]

theorem alookup_map_value {β γ : Type} (f : β → γ) (key : String) :
    ∀ l : List (String × β),
      alookup key (l.map (fun p => (p.1, f p.2))) = (alookup key l).map f
  | [] => rfl
  | (k, w) :: rest => by
    by_cases h : k = key
    · simp [alookup_cons, h]
    · simp [alookup_cons, h, alookup_map_value f key rest]

theorem alookup_const_map {β : Type} (key : String) (c : β) :
    ∀ l : List String,
      alookup key (l.map (fun s => (s, c))) = if key ∈ l then some c else none
  | [] => by simp
  | s :: rest => by
    by_cases h : s = key
    · simp [alookup_cons, h]
    · have h2 : ¬ key = s := fun hh => h hh.symm
      simp [alookup_cons, h, h2, alookup_const_map key c rest]

/-! ### Python `parse_group_limits` -/

/-- ASCII whitespace test, the core of Python `str.strip()` and JS
`String.trim()` (both also strip rarer Unicode whitespace, which the data
flowing through this program never contains). -/
def isSpaceChar (c : Char) : Bool :=
  c = ' ' || c = '\t' || c = '\n' || c = '\r'

/-- Strip leading and trailing whitespace from a character list. -/
def trimChars (l : List Char) : List Char :=
  ((l.dropWhile isSpaceChar).reverse.dropWhile isSpaceChar).reverse

/-- Python `str.strip()` / JS `String.trim()` as used throughout
`maker.py`. -/
def strTrim (s : String) : String :=
  String.mk (trimChars s.toList)

/-- The Korean "pick" marker character `택` used by `parse_group_limits`. -/
def taek : Char := '택'

/-- Numeric value of a digit run (the Python `int(match.group(1))`). -/
def digitsVal (l : List Char) : Nat :=
  l.foldl (fun acc c => acc * 10 + (c.toNat - '0'.toNat)) 0

/-- Whether the first character of a character list is a decimal digit. -/
def headIsDigit : List Char → Bool
  | [] => false
  | d :: _ => d.isDigit

/-- Leftmost occurrence of `택` immediately followed by at least one digit,
returning the value of the maximal digit run after it.  This embeds
`re.search(r'택(\d+)', s)`: `re.search` yields the leftmost match and the
greedy `\d+` captures the maximal digit run. -/
def findTaekLimit : List Char → Option Nat
  | [] => none
  | c :: rest =>
    if c = taek ∧ headIsDigit rest = true then
      some (digitsVal (rest.takeWhile Char.isDigit))
    else findTaekLimit rest

/-- Whether `택` immediately followed by a digit occurs somewhere. -/
def hasTaekDigit (l : List Char) : Bool :=
  (findTaekLimit l).isSome

/-- Embeds the Python method `parse_group_limits` of `maker.py`:

    if pd.isna(selection_info) or not str(selection_info).strip(): return None, None
    selection_str = str(selection_info).strip()
    match = re.search(r'택(\d+)', selection_str)
    if match:
        limit = int(match.group(1))
        group_name = selection_str.split('택')[0].strip()
        if not group_name: group_name = "선택그룹"
        return group_name, limit
    return None, None

A missing cell (`pd.isna`) reaches the engine as the empty string, so the
blank/missing case is the `s.trim = ""` branch.  Note the limit comes from
the regex match (leftmost `택` followed by digits) while the group name is
the text before the *first* `택` of the string. -/
def parse_group_limits (selection_info : String) : Option (String × Nat) :=
  let s := strTrim selection_info
  if s = "" then none
  else
    match findTaekLimit s.toList with
    | some limit =>
      let group_name := strTrim (String.mk (s.toList.takeWhile (fun c => c ≠ taek)))
      some ((if group_name = "" then "선택그룹" else group_name), limit)
    | none => none

/-! ### Python `process_data`: the group-limit table -/

/-- The fields of one spreadsheet row that the group-limit loop of
`process_data` reads. -/
structure Row where
  selection_info : String
  semester : String
deriving DecidableEq, Repr

/-- One step of the group-limit loop of `process_data`: parse the
selection cell; Python then guards with `if parsed_group_name and limit:`
(`limit` of `0` is falsy and is skipped), skips rows with a blank
semester, and inserts `key = f"{semester}_{group_name}"` only if the key
is not already present (first row wins). -/
def processRow (acc : List (String × LimitInfo)) (r : Row) : List (String × LimitInfo) :=
  match parse_group_limits r.selection_info with
  | some (g, limit) =>
    if limit ≠ 0 then
      let semester := strTrim r.semester
      if semester = "" then acc
      else
        let key := semester ++ "_" ++ g
        if (alookup key acc).isSome then acc
        else acc ++ [(key, { semester := semester, group_name := g, limit := limit })]
    else acc
  | none => acc

/-- The whole group-limit loop of `process_data` (`self.group_limits`),
an insertion-ordered dict embedded as an association list. -/
def process_group_limits (rows : List Row) : List (String × LimitInfo) :=
  rows.foldl processRow []

/-! ### The JavaScript selection engine -/

/-- Lexicographic comparison of character lists by code point, the order
JS `Array.sort()` uses on strings (JS compares UTF-16 code units, which
agrees with code points on all characters appearing in this data). -/
def charListLe : List Char → List Char → Bool
  | [], _ => true
  | _ :: _, [] => false
  | c :: cs, d :: ds =>
    if c.toNat < d.toNat then true
    else if d.toNat < c.toNat then false
    else charListLe cs ds

/-- String comparison for the semester sort. -/
def strLe (s t : String) : Bool := charListLe s.toList t.toList

/-- Insert a string into a (sorted) list, keeping `strLe` order.  Building
block for the JS `Array.sort()` on the semester list. -/
def insertSorted (s : String) : List String → List String
  | [] => [s]
  | t :: rest => if strLe s t then s :: t :: rest else t :: insertSorted s rest

/-- Lexicographic string sort (JS default `Array.sort()`). -/
def sortStrings (l : List String) : List String :=
  l.foldr insertSorted []

/-- First-occurrence deduplication with an accumulator of already-seen
strings. -/
def dedupFirstAux (seen : List String) : List String → List String
  | [] => []
  | s :: rest =>
    if s ∈ seen then dedupFirstAux seen rest
    else s :: dedupFirstAux (s :: seen) rest

/-- First-occurrence deduplication (JS `[...new Set(xs)]`). -/
def dedupFirst (l : List String) : List String := dedupFirstAux [] l

/-- The global `semesterList` of `initializeSimulator`:
`[...new Set(courseData.map(c => c.semester))].filter(s => s && String(s).trim() !== "").sort()`. -/
def semesterListOf (courseData : List Course) : List String :=
  sortStrings (((dedupFirst (courseData.map Course.semester)).filter
    (fun s => s ≠ "" && strTrim s ≠ "")))

/-- The group key `` `${semester}_${selection_group}` `` used by both the
Python table and the JS maps. -/
def sgKey (semester g : String) : String := semester ++ "_" ++ g

/-- `courseData.find(c => c.semester === semester && c.name === courseName)`. -/
def findCourse (courseData : List Course) (semester courseName : String) : Option Course :=
  courseData.find? (fun c => decide (c.semester = semester) && decide (c.name = courseName))

/-- The chosen list of one semester; `selectedCourses[semester]` with the
JS optional-chaining default (an absent key behaves as an empty list for
the read operations modeled here). -/
def chosenD (semester : String) (st : SimState) : List Course :=
  (alookup semester st.selectedCourses).getD []

/-- `lst.some(c => c.name === n)` / `lst.find(c => c.name === n)` truth value. -/
def hasName (lst : List Course) (n : String) : Bool :=
  lst.any (fun c => decide (c.name = n))

/-- The pure part of `initializeSelectionGroups`: one `GroupInfo` per
`groupLimits` entry, with an empty `selected` array. -/
def initGroups (gl : List (String × LimitInfo)) : List (String × GroupInfo) :=
  gl.map (fun p => (p.1,
    { semester := p.2.semester, name := p.2.group_name, limit := p.2.limit, selected := [] }))

/-- `selectedCourses` right after `initializeSimulator` creates one empty
array per semester. -/
def emptyChosen (courseData : List Course) : List (String × List Course) :=
  (semesterListOf courseData).map (fun s => (s, ([] : List Course)))

/-- First half of one iteration of the `courseData.forEach` loop of
`initializeSelectionGroups`: push the required course into its semester's
chosen array, if that semester key exists and the name is not already
present. -/
def addRequiredChosen (st : SimState) (course : Course) : SimState :=
  match alookup course.semester st.selectedCourses with
  | some lst =>
    if hasName lst course.name then st
    else { st with selectedCourses := aset course.semester (lst ++ [course]) st.selectedCourses }
  | none => st

/-- Second half of the loop iteration: when the course's
`selection_group` resolves in `selectionGroups`, push it into that group's
`selected` array (deduplicated by name). -/
def addRequiredGroup (st1 : SimState) (course : Course) : SimState :=
  match course.selection_group with
  | some g =>
    match alookup (sgKey course.semester g) st1.selectionGroups with
    | some gi =>
      if hasName gi.selected course.name then st1
      else
        let gi2 := { gi with selected := gi.selected ++ [course] }
        { st1 with selectionGroups := aset (sgKey course.semester g) gi2 st1.selectionGroups }
    | none => st1
  | none => st1

/-- One iteration of the `courseData.forEach` loop of
`initializeSelectionGroups`: a course with `required === '지정'` is pushed
into its semester's chosen array and, when its `selection_group` resolves
in `selectionGroups`, into that group's `selected` array. -/
def addRequired (st : SimState) (course : Course) : SimState :=
  if course.required = "지정" then addRequiredGroup (addRequiredChosen st course) course
  else st

/-- The engine state right after `initializeSimulator` ran
`initializeSelectionGroups`: empty chosen arrays per semester, groups from
`groupLimits`, then the required-course loop. -/
def initState (courseData : List Course) (gl : List (String × LimitInfo)) : SimState :=
  courseData.foldl addRequired
    { selectedCourses := emptyChosen courseData, selectionGroups := initGroups gl }

/-- Embeds the JavaScript function `toggleCourse(semester, courseName,
checkbox)`.  `checked` is `checkbox.checked` at `onchange` time, i.e. the
new desired state of the control.  An unknown course hits the silent early
`return`; a blocked selection resets the checkbox, raises the quota alert
and returns with the state untouched. -/
def toggleCourse (courseData : List Course) (st : SimState)
    (semester courseName : String) (checked : Bool) : SimState × ToggleOutcome :=
  match findCourse courseData semester courseName with
  | none => (st, ToggleOutcome.ok)
  | some course =>
    let isCurrentlySelected := hasName (chosenD semester st) courseName
    if checked && !isCurrentlySelected then
      match course.selection_group with
      | some g =>
        match alookup (sgKey semester g) st.selectionGroups with
        | some gi =>
          if gi.limit ≤ gi.selected.length then
            (st, ToggleOutcome.quotaAlert gi.name gi.limit)
          else
            let gi2 := { gi with selected := gi.selected ++ [course] }
            let st1 := { st with selectionGroups := aset (sgKey semester g) gi2 st.selectionGroups }
            let chosen2 := chosenD semester st1 ++ [course]
            ({ st1 with selectedCourses := aset semester chosen2 st1.selectedCourses },
              ToggleOutcome.ok)
        | none =>
          let chosen2 := chosenD semester st ++ [course]
          ({ st with selectedCourses := aset semester chosen2 st.selectedCourses },
            ToggleOutcome.ok)
      | none =>
        let chosen2 := chosenD semester st ++ [course]
        ({ st with selectedCourses := aset semester chosen2 st.selectedCourses },
          ToggleOutcome.ok)
    else if !checked && isCurrentlySelected then
      let st1 :=
        match course.selection_group with
        | some g =>
          match alookup (sgKey semester g) st.selectionGroups with
          | some gi =>
            let gi2 := { gi with selected := gi.selected.filter (fun c => !(decide (c.name = courseName))) }
            { st with selectionGroups := aset (sgKey semester g) gi2 st.selectionGroups }
          | none => st
        | none => st
      let chosen2 := (chosenD semester st1).filter (fun c => !(decide (c.name = courseName)))
      ({ st1 with selectedCourses := aset semester chosen2 st1.selectedCourses },
        ToggleOutcome.ok)
    else
      (st, ToggleOutcome.ok)

/-- The `isDisabled` computation of `createCourseCard(course, isRequired)`:
the card's checkbox is rendered disabled iff the course is not required,
has a `selection_group` whose key resolves in `selectionGroups`, that
group is at (or over) its limit, and the course is not itself selected. -/
def cardIsDisabled (st : SimState) (course : Course) (isRequired : Bool) : Bool :=
  let isSelected := hasName (chosenD course.semester st) course.name
  if !isRequired then
    match course.selection_group with
    | some g =>
      match alookup (sgKey course.semester g) st.selectionGroups with
      | some gi => decide (gi.limit ≤ gi.selected.length) && !isSelected
      | none => false
    | none => false
  else false

/-- The quantities computed by the JavaScript `updateSummary`:
`totalCredits` and the per-`교과(군)` credit totals (`groupTotals`, in
first-contribution order as JS object keys). -/
structure Summary where
  totalCredits : Int
  groupTotals : List (String × Int)
deriving DecidableEq, Repr

/-- `groupTotals[gName] = (groupTotals[gName] || 0) + credits`. -/
def bump (k : String) (v : Int) : List (String × Int) → List (String × Int)
  | [] => [(k, v)]
  | (k', w) :: rest => if k' = k then (k', w + v) :: rest else (k', w) :: bump k v rest

/-- Embeds the accumulation of the JavaScript `updateSummary`: iterate
`semesterList`, and for every chosen course add `Number(course.credits) || 0`
(which equals `course.credits` for the integer credits produced upstream)
to the total and to its `course.group || '기타'` bucket. -/
def updateSummary (courseData : List Course) (st : SimState) : Summary :=
  let r := (semesterListOf courseData).foldl
    (fun acc s => (chosenD s st).foldl
      (fun (acc2 : Int × List (String × Int)) c =>
        (acc2.1 + c.credits,
          bump (if c.group = "" then "기타" else c.group) c.credits acc2.2))
      acc)
    ((0 : Int), ([] : List (String × Int)))
  { totalCredits := r.1, groupTotals := r.2 }

/-- The sorted display order of the group-credit lines
(`Object.keys(groupTotals).sort()` in `updateSummary`). -/
def sortedGroupTotals (sm : Summary) : List (String × Int) :=
  (sortStrings (sm.groupTotals.map Prod.fst)).map (fun g => (g, (alookup g sm.groupTotals).getD 0))

/-- Run a sequence of `toggleCourse` calls
(semester, course name, new checkbox state). -/
def runOps (courseData : List Course) (st : SimState) :
    List (String × String × Bool) → SimState
  | [] => st
  | (sem, nm, chk) :: rest =>
    runOps courseData (toggleCourse courseData st sem nm chk).1 rest

/-! ### Basic facts about `findCourse` -/

theorem findCourse_props {cd : List Course} {semester courseName : String} {c : Course}
    (h : findCourse cd semester courseName = some c) :
    c ∈ cd ∧ c.semester = semester ∧ c.name = courseName := by
  unfold findCourse at h
  have hmem := List.mem_of_find?_eq_some h
  have hp := List.find?_some h
  simp only [Bool.and_eq_true, decide_eq_true_eq] at hp
  exact ⟨hmem, hp.1, hp.2⟩

/-! ### C1: quota rejection is total and idempotent -/

/-- C1.  For an elective course that is not currently chosen and whose
resolved selection group is at (or over) its limit, a selecting
`toggleCourse` call returns the quota rejection carrying the group's name
and limit and leaves the entire state (all chosen sets and all groups'
`selected` arrays) exactly unchanged; calling it again immediately gives
the same rejection and again changes nothing. -/
theorem toggle_quota_rejection_idempotent
    (cd : List Course) (st : SimState) (semester courseName : String)
    (course : Course) (g : String) (gi : GroupInfo)
    (hfind : findCourse cd semester courseName = some course)
    (_helect : course.required ≠ "지정")
    (hnot : hasName (chosenD semester st) courseName = false)
    (hg : course.selection_group = some g)
    (hgi : alookup (sgKey semester g) st.selectionGroups = some gi)
    (hfull : gi.limit ≤ gi.selected.length) :
    toggleCourse cd st semester courseName true
      = (st, ToggleOutcome.quotaAlert gi.name gi.limit) ∧
    toggleCourse cd (toggleCourse cd st semester courseName true).1 semester courseName true
      = (st, ToggleOutcome.quotaAlert gi.name gi.limit) := by
  have h1 : toggleCourse cd st semester courseName true
      = (st, ToggleOutcome.quotaAlert gi.name gi.limit) := by
    unfold toggleCourse
    rw [hfind]
    simp only [hnot, hg, hgi, Bool.not_false, Bool.and_self, if_true, hfull, if_pos]
  refine ⟨h1, ?_⟩
  rw [h1]
  exact h1

/-- A concrete course for witnesses and counterexamples. -/
def exCourse (sem nm : String) (cr : Int) (req : String) (sg : Option String)
    (sl : Option Nat) : Course :=
  { semester := sem, type := "진로", name := nm, credits := cr, required := req,
    subject := "", group := "과학", selection_group := sg, selection_limit := sl }

/-- Concrete limit entry for witnesses and counterexamples. -/
def exLimit (sem g : String) (n : Nat) : LimitInfo :=
  { semester := sem, group_name := g, limit := n }

/-- Catalog with two electives in a pick-1 group. -/
def cdA : List Course :=
  [exCourse "1" "e1" 2 "" (some "G") (some 1), exCourse "1" "e2" 2 "" (some "G") (some 1)]

/-- Limit table for `cdA`: group `G` of semester `1`, limit 1. -/
def glA : List (String × LimitInfo) := [("1_G", exLimit "1" "G" 1)]

/-- The `cdA` engine state in which `e1` is already selected. -/
def stA : SimState := (toggleCourse cdA (initState cdA glA) "1" "e1" true).1

/-- Witness for C1 on a concrete catalog: with `e1` selected, group `G`
(limit 1) is full, so selecting `e2` is rejected and `stA` is unchanged. -/
theorem toggle_quota_rejection_idempotent_witness :
    toggleCourse cdA stA "1" "e2" true = (stA, ToggleOutcome.quotaAlert "G" 1) :=
  (toggle_quota_rejection_idempotent cdA stA "1" "e2"
    (exCourse "1" "e2" 2 "" (some "G") (some 1)) "G"
    { semester := "1", name := "G", limit := 1,
      selected := [exCourse "1" "e1" 2 "" (some "G") (some 1)] }
    (by decide) (by decide) (by decide) (by decide) (by decide) (by decide)).1

/-! ### C5: the enablement condition of `createCourseCard` -/

/-- C5.  An elective course's toggle control (its checkbox in
`createCourseCard`, called with `isRequired = false`) is enabled exactly
when the course is already chosen, or has no selection-group reference,
or its reference does not resolve in `selectionGroups` (group without a
parsed limit — unconstrained), or the resolved group is strictly below
its limit. -/
theorem selectable_iff (st : SimState) (course : Course) :
    cardIsDisabled st course false = false ↔
      (hasName (chosenD course.semester st) course.name = true ∨
       course.selection_group = none ∨
       (∃ g, course.selection_group = some g ∧
         alookup (sgKey course.semester g) st.selectionGroups = none) ∨
       (∃ g gi, course.selection_group = some g ∧
         alookup (sgKey course.semester g) st.selectionGroups = some gi ∧
         gi.selected.length < gi.limit)) := by
  unfold cardIsDisabled
  cases hg : course.selection_group with
  | none => simp [hg]
  | some g =>
    cases hk : alookup (sgKey course.semester g) st.selectionGroups with
    | none => simp [hg, hk]
    | some gi =>
      by_cases hs : hasName (chosenD course.semester st) course.name = true
      · simp [hg, hk, hs]
      · by_cases hlim : gi.limit ≤ gi.selected.length
        · simp [hg, hk, hs, hlim, Nat.not_lt.mpr hlim]
        · simp [hg, hk, hs, hlim, Nat.lt_of_not_le hlim]

/-! ### C9: unknown-course and Required-course toggles -/

/-- Catalog with one Required and one Elective course sharing the pick-1
group `G` of semester `1`. -/
def cdB : List Course :=
  [exCourse "1" "r" 3 "지정" (some "G") (some 1), exCourse "1" "e" 2 "" (some "G") (some 1)]

/-- Limit table for `cdB`. -/
def glB : List (String × LimitInfo) := [("1_G", exLimit "1" "G" 1)]

/-- C9 counterexample.  Toggling a `(semester, courseName)` pair unknown to
the engine hits the silent early `return` of `toggleCourse`: the call ends
with the same ordinary no-alert outcome as a successful toggle — there is
no `InvalidOperation` (or any other) error signal anywhere in the code —
though the state is indeed unchanged.  And toggling a Required course is
not rejected at all: `toggleCourse` never inspects `required`, and calling
it on the Required course `r` with an unchecked box mutates the state
(it removes `r` from the chosen set).  Both halves contradict the claimed
explicit `InvalidOperation` failure that alters no state. -/
theorem toggle_invalid_operation_counterexample :
    (toggleCourse cdB (initState cdB glB) "2" "zz" true
      = (initState cdB glB, ToggleOutcome.ok)) ∧
    ((toggleCourse cdB (initState cdB glB) "1" "r" false).2 = ToggleOutcome.ok ∧
      (toggleCourse cdB (initState cdB glB) "1" "r" false).1 ≠ initState cdB glB) := by
  decide

/-- C9 amended.  A toggle whose `(semester, courseName)` pair matches no
course in the catalog is a silent no-op: it produces no error outcome
(the outcome is the same `ok` a successful toggle produces) and alters no
state.  Required courses are not rejected by `toggleCourse` itself; they
are protected only by the rendering layer, which never creates a checkbox
for them (`createCourseCard` with `isRequired = true`). -/
theorem toggle_unknown_silent_noop
    (cd : List Course) (st : SimState) (semester courseName : String) (checked : Bool)
    (h : findCourse cd semester courseName = none) :
    toggleCourse cd st semester courseName checked = (st, ToggleOutcome.ok) := by
  unfold toggleCourse
  rw [h]

/-- Witness for the amended C9 at a concrete unknown course. -/
theorem toggle_unknown_silent_noop_witness :
    toggleCourse cdB (initState cdB glB) "9" "없는과목" true
      = (initState cdB glB, ToggleOutcome.ok) :=
  toggle_unknown_silent_noop cdB (initState cdB glB) "9" "없는과목" true (by decide)

/-! ### C8: the `택N` parse -/

/-- C8 counterexample.  In `"A택B택2"` the regex `택(\d+)` matches the
second marker `택2`, so the claim's "text preceding the marker" is
`"A택B"`; but `split('택')[0]` takes the text before the *first* `택`,
so the code returns group name `"A"`. -/
theorem parse_group_limits_counterexample :
    parse_group_limits "A택B택2" = some ("A", 2) ∧
    parse_group_limits "A택B택2" ≠ some ("A택B", 2) := by
  decide

/-- The fallback of `parse_group_limits` for an empty group name. -/
def defaultName (n : String) : String :=
  if n = "" then "선택그룹" else n

theorem alookup_append {β : Type} (key : String) :
    ∀ l₁ l₂ : List (String × β),
      alookup key (l₁ ++ l₂) =
        match alookup key l₁ with
        | some v => some v
        | none => alookup key l₂
  | [], l₂ => rfl
  | (k, v) :: rest, l₂ => by
    by_cases h : k = key
    · simp [alookup_cons, h]
    · simp [alookup_cons, h, alookup_append key rest l₂]

theorem takeWhile_ne_of_split (npre nsuf : List Char) (h : taek ∉ npre) :
    (npre ++ taek :: nsuf).takeWhile (fun c => c ≠ taek) = npre := by
  induction npre with
  | nil => simp [List.takeWhile]
  | cons c rest ih =>
    simp only [List.mem_cons, not_or] at h
    have hc : ¬ c = taek := fun hh => h.1 hh.symm
    have hcond : decide (c ≠ taek) = true := by simp [hc]
    simp only [List.cons_append, List.takeWhile_cons, hcond, if_true]
    rw [ih h.2]

theorem findTaekLimit_split (pre post : List Char)
    (hpre : hasTaekDigit pre = false) (hpost : headIsDigit post = true) :
    findTaekLimit (pre ++ taek :: post) = some (digitsVal (post.takeWhile Char.isDigit)) := by
  induction pre with
  | nil => simp [findTaekLimit, hpost]
  | cons c rest ih =>
    unfold hasTaekDigit findTaekLimit at hpre
    by_cases hc : c = taek ∧ headIsDigit rest = true
    · simp [hc] at hpre
    · have hrest : hasTaekDigit rest = false := by
        simp only [hc, if_false] at hpre
        simpa [hasTaekDigit] using hpre
      have hc2 : ¬(c = taek ∧ headIsDigit (rest ++ taek :: post) = true) := by
        intro hand
        cases rest with
        | nil =>
          have hf : headIsDigit ([] ++ taek :: post) = false := rfl
          rw [hf] at hand
          exact Bool.false_ne_true hand.2
        | cons d ds => exact hc ⟨hand.1, by simpa [headIsDigit] using hand.2⟩
      simp only [List.cons_append]
      unfold findTaekLimit
      rw [if_neg hc2]
      exact ih hrest

/-- C8 amended.  For the trimmed cell text: if `택` immediately followed
by a digit occurs, the parse returns the value of the maximal digit run
after the leftmost such occurrence together with the (trimmed, defaulted)
text that precedes the *first* `택` of the cell — which is not necessarily
the text preceding the matched marker (see the counterexample).  If no
such occurrence exists (in particular for blank or missing cells) the
parse yields nothing and the course is unconstrained. -/
theorem parse_group_limits_spec (s : String) (pre post npre nsuf : List Char) :
    (((strTrim s).toList = pre ++ taek :: post) → headIsDigit post = true →
      hasTaekDigit pre = false →
      ((strTrim s).toList = npre ++ taek :: nsuf) → taek ∉ npre →
      parse_group_limits s
        = some (defaultName (strTrim (String.mk npre)),
            digitsVal (post.takeWhile Char.isDigit))) ∧
    (hasTaekDigit (strTrim s).toList = false → parse_group_limits s = none) := by
  constructor
  · intro hsplit hdig hleft hnsplit hnpre
    have hne : strTrim s ≠ "" := by
      intro hempty
      rw [hempty] at hsplit
      exact absurd hsplit.symm (by simp)
    unfold parse_group_limits
    rw [if_neg hne, hsplit, findTaekLimit_split pre post hleft hdig]
    have htake : (pre ++ taek :: post).takeWhile (fun c => c ≠ taek) = npre := by
      rw [← hsplit, hnsplit]
      exact takeWhile_ne_of_split npre nsuf hnpre
    rw [htake]
    simp [defaultName]
  · intro hno
    unfold parse_group_limits
    unfold hasTaekDigit at hno
    by_cases hne : strTrim s = ""
    · rw [if_pos hne]
    · rw [if_neg hne]
      cases hf : findTaekLimit (strTrim s).toList with
      | none => rfl
      | some v => rw [hf] at hno; exact absurd hno (by simp)

/-- Witness for the amended C8: `" 과학 택2반"` parses to group
`"과학"`, limit 2; and a cell with no marker parses to nothing. -/
theorem parse_group_limits_spec_witness :
    parse_group_limits " 과학 택2반" = some ("과학", 2) ∧
    parse_group_limits "자유선택" = none := by
  constructor
  · exact (parse_group_limits_spec " 과학 택2반"
      ['과', '학', ' '] ['2', '반'] ['과', '학', ' '] ['2', '반']).1
      (by decide) (by decide) (by decide) (by decide) (by decide)
  · exact (parse_group_limits_spec "자유선택" [] [] [] []).2 (by decide)

/-! ### C10: first row wins in the group-limit table -/

/-- Whether a spreadsheet row contributes an entry under `key` to the
group-limit table (parse succeeds, Python-truthy limit, non-blank
semester, matching key). -/
def contributesB (r : Row) (key : String) : Bool :=
  match parse_group_limits r.selection_info with
  | some (g, n) =>
    decide (n ≠ 0) && decide (strTrim r.semester ≠ "") &&
      decide (strTrim r.semester ++ "_" ++ g = key)
  | none => false

theorem processRow_eq_none {r : Row} (acc : List (String × LimitInfo))
    (hp : parse_group_limits r.selection_info = none) :
    processRow acc r = acc := by
  unfold processRow
  rw [hp]

theorem processRow_eq_some {r : Row} {g : String} {n : Nat} (acc : List (String × LimitInfo))
    (hp : parse_group_limits r.selection_info = some (g, n)) :
    processRow acc r =
      if n ≠ 0 then
        if strTrim r.semester = "" then acc
        else
          if (alookup (strTrim r.semester ++ "_" ++ g) acc).isSome then acc
          else acc ++ [(strTrim r.semester ++ "_" ++ g,
            { semester := strTrim r.semester, group_name := g, limit := n })]
      else acc := by
  unfold processRow
  rw [hp]

theorem processRow_preserves {key : String} {v : LimitInfo} {acc : List (String × LimitInfo)}
    (h : alookup key acc = some v) (r : Row) :
    alookup key (processRow acc r) = some v := by
  cases hp : parse_group_limits r.selection_info with
  | none => rw [processRow_eq_none acc hp]; exact h
  | some p =>
    obtain ⟨g, n⟩ := p
    rw [processRow_eq_some acc hp]
    by_cases hn : n ≠ 0
    · rw [if_pos hn]
      by_cases hsem : strTrim r.semester = ""
      · rw [if_pos hsem]; exact h
      · rw [if_neg hsem]
        by_cases hk : (alookup (strTrim r.semester ++ "_" ++ g) acc).isSome = true
        · rw [if_pos hk]; exact h
        · rw [if_neg hk, alookup_append, h]
    · rw [if_neg hn]; exact h

theorem processRow_not_contrib {key : String} {acc : List (String × LimitInfo)} {r : Row}
    (h : contributesB r key = false) :
    alookup key (processRow acc r) = alookup key acc := by
  unfold contributesB at h
  cases hp : parse_group_limits r.selection_info with
  | none => rw [processRow_eq_none acc hp]
  | some p =>
    obtain ⟨g, n⟩ := p
    rw [hp] at h
    rw [processRow_eq_some acc hp]
    by_cases hn : n ≠ 0
    · rw [if_pos hn]
      by_cases hsem : strTrim r.semester = ""
      · rw [if_pos hsem]
      · rw [if_neg hsem]
        have hk : strTrim r.semester ++ "_" ++ g ≠ key := by
          intro hkey
          rw [Bool.eq_false_iff] at h
          exact h (by simp [hn, hsem, hkey])
        by_cases hl : (alookup (strTrim r.semester ++ "_" ++ g) acc).isSome = true
        · rw [if_pos hl]
        · rw [if_neg hl, alookup_append]
          cases hacc : alookup key acc with
          | some v => rfl
          | none => simp [alookup_cons, hk]
    · rw [if_neg hn]


theorem foldl_processRow_preserves {key : String} {v : LimitInfo} :
    ∀ (rows : List Row) (acc : List (String × LimitInfo)),
      alookup key acc = some v →
      alookup key (rows.foldl processRow acc) = some v
  | [], _, h => h
  | r :: rest, acc, h =>
    foldl_processRow_preserves rest (processRow acc r) (processRow_preserves h r)

theorem foldl_processRow_not_contrib {key : String} :
    ∀ (rows : List Row) (acc : List (String × LimitInfo)),
      (∀ r ∈ rows, contributesB r key = false) →
      alookup key (rows.foldl processRow acc) = alookup key acc
  | [], _, _ => rfl
  | r :: rest, acc, h => by
    rw [List.foldl_cons,
      foldl_processRow_not_contrib rest (processRow acc r) (fun r' hr' => h r' (by simp [hr'])),
      processRow_not_contrib (h r (by simp))]

/-- C10.  When several catalog rows map to the same `(semester, group
name)` key, the limit recorded in the table built by `process_data` is the
one of the first such row in catalog order: rows before it contribute
nothing under the key, and no later row ever overwrites the entry. -/
theorem group_limit_first_row_wins
    (rows₁ rows₂ : List Row) (r : Row) (g : String) (n : Nat)
    (hparse : parse_group_limits r.selection_info = some (g, n))
    (hn : n ≠ 0)
    (hsem : strTrim r.semester ≠ "")
    (hfirst : ∀ r' ∈ rows₁, contributesB r' (strTrim r.semester ++ "_" ++ g) = false) :
    alookup (strTrim r.semester ++ "_" ++ g) (process_group_limits (rows₁ ++ r :: rows₂))
      = some { semester := strTrim r.semester, group_name := g, limit := n } := by
  unfold process_group_limits
  rw [List.foldl_append]
  have h1 : alookup (strTrim r.semester ++ "_" ++ g) (rows₁.foldl processRow []) = none := by
    rw [foldl_processRow_not_contrib rows₁ [] hfirst]
    rfl
  rw [List.foldl_cons]
  apply foldl_processRow_preserves
  rw [processRow_eq_some _ hparse, if_pos hn, if_neg hsem]
  have hns : ¬ (alookup (strTrim r.semester ++ "_" ++ g) (rows₁.foldl processRow [])).isSome = true := by
    rw [h1]; simp
  rw [if_neg hns, alookup_append, h1]
  simp [alookup_cons]

/-- Witness for C10: two rows of semester `1학기`, group `G`, limits 2
then 3 — the recorded limit is 2. -/
theorem group_limit_first_row_wins_witness :
    alookup "1학기_G" (process_group_limits [⟨"G택2", "1학기"⟩, ⟨"G택3", "1학기"⟩])
      = some { semester := "1학기", group_name := "G", limit := 2 } :=
  group_limit_first_row_wins [] [⟨"G택3", "1학기"⟩] ⟨"G택2", "1학기"⟩ "G" 2
    (by decide) (by decide) (by decide) (by intro r' hr'; simp at hr')

/-! ### Case analysis of `toggleCourse` -/

theorem toggle_noop (cd : List Course) (st : SimState) (semester courseName : String)
    (chk : Bool) (course : Course)
    (hfind : findCourse cd semester courseName = some course)
    (heq : hasName (chosenD semester st) courseName = chk) :
    toggleCourse cd st semester courseName chk = (st, ToggleOutcome.ok) := by
  unfold toggleCourse
  rw [hfind]
  cases chk with
  | false => simp [heq]
  | true => simp [heq]

theorem toggle_select_resolved_notfull (cd : List Course) (st : SimState)
    (semester courseName : String) (course : Course) (g : String) (gi : GroupInfo)
    (hfind : findCourse cd semester courseName = some course)
    (hnot : hasName (chosenD semester st) courseName = false)
    (hg : course.selection_group = some g)
    (hgi : alookup (sgKey semester g) st.selectionGroups = some gi)
    (hroom : gi.selected.length < gi.limit) :
    toggleCourse cd st semester courseName true =
      ({ selectedCourses := aset semester (chosenD semester st ++ [course]) st.selectedCourses,
         selectionGroups := aset (sgKey semester g)
           { gi with selected := gi.selected ++ [course] } st.selectionGroups },
       ToggleOutcome.ok) := by
  unfold toggleCourse
  rw [hfind]
  simp only [hnot, hg, hgi, Bool.not_false, Bool.and_self, if_true, Nat.not_le.mpr hroom,
    if_false]
  rfl

theorem toggle_select_unresolved (cd : List Course) (st : SimState)
    (semester courseName : String) (course : Course) (g : String)
    (hfind : findCourse cd semester courseName = some course)
    (hnot : hasName (chosenD semester st) courseName = false)
    (hg : course.selection_group = some g)
    (hgi : alookup (sgKey semester g) st.selectionGroups = none) :
    toggleCourse cd st semester courseName true =
      ({ selectedCourses := aset semester (chosenD semester st ++ [course]) st.selectedCourses,
         selectionGroups := st.selectionGroups },
       ToggleOutcome.ok) := by
  unfold toggleCourse
  rw [hfind]
  simp only [hnot, hg, hgi, Bool.not_false, Bool.and_self, if_true]

theorem toggle_select_nogroup (cd : List Course) (st : SimState)
    (semester courseName : String) (course : Course)
    (hfind : findCourse cd semester courseName = some course)
    (hnot : hasName (chosenD semester st) courseName = false)
    (hg : course.selection_group = none) :
    toggleCourse cd st semester courseName true =
      ({ selectedCourses := aset semester (chosenD semester st ++ [course]) st.selectedCourses,
         selectionGroups := st.selectionGroups },
       ToggleOutcome.ok) := by
  unfold toggleCourse
  rw [hfind]
  simp only [hnot, hg, Bool.not_false, Bool.and_self, if_true]

theorem toggle_deselect_resolved (cd : List Course) (st : SimState)
    (semester courseName : String) (course : Course) (g : String) (gi : GroupInfo)
    (hfind : findCourse cd semester courseName = some course)
    (hsel : hasName (chosenD semester st) courseName = true)
    (hg : course.selection_group = some g)
    (hgi : alookup (sgKey semester g) st.selectionGroups = some gi) :
    toggleCourse cd st semester courseName false =
      ({ selectedCourses := aset semester
           ((chosenD semester st).filter (fun c => !(decide (c.name = courseName))))
           st.selectedCourses,
         selectionGroups := aset (sgKey semester g)
           { gi with selected := gi.selected.filter (fun c => !(decide (c.name = courseName))) }
           st.selectionGroups },
       ToggleOutcome.ok) := by
  unfold toggleCourse
  rw [hfind]
  simp only [hsel, hg, hgi, Bool.not_true, Bool.and_false, Bool.false_and, Bool.and_self,
    Bool.not_false, Bool.and_true, if_false, if_true]
  rfl

theorem toggle_deselect_unresolved (cd : List Course) (st : SimState)
    (semester courseName : String) (course : Course) (g : String)
    (hfind : findCourse cd semester courseName = some course)
    (hsel : hasName (chosenD semester st) courseName = true)
    (hg : course.selection_group = some g)
    (hgi : alookup (sgKey semester g) st.selectionGroups = none) :
    toggleCourse cd st semester courseName false =
      ({ selectedCourses := aset semester
           ((chosenD semester st).filter (fun c => !(decide (c.name = courseName))))
           st.selectedCourses,
         selectionGroups := st.selectionGroups },
       ToggleOutcome.ok) := by
  unfold toggleCourse
  rw [hfind]
  simp only [hsel, hg, hgi, Bool.not_true, Bool.and_false, Bool.false_and, Bool.and_self,
    Bool.not_false, Bool.and_true, if_false, if_true]
  rfl

theorem toggle_deselect_nogroup (cd : List Course) (st : SimState)
    (semester courseName : String) (course : Course)
    (hfind : findCourse cd semester courseName = some course)
    (hsel : hasName (chosenD semester st) courseName = true)
    (hg : course.selection_group = none) :
    toggleCourse cd st semester courseName false =
      ({ selectedCourses := aset semester
           ((chosenD semester st).filter (fun c => !(decide (c.name = courseName))))
           st.selectedCourses,
         selectionGroups := st.selectionGroups },
       ToggleOutcome.ok) := by
  unfold toggleCourse
  rw [hfind]
  simp only [hsel, hg, Bool.not_true, Bool.and_false, Bool.false_and, Bool.and_self,
    Bool.not_false, Bool.and_true, if_false, if_true]
  rfl


/-! ### Well-formedness of the catalog handed to the engine -/

/-- The composite identity of a course, `(semester, name)` — the spec
assumes names unique within a semester. -/
def courseKey (c : Course) : String × String := (c.semester, c.name)

/-- Required marker test (`course.required === '지정'`). -/
def requiredB (c : Course) : Bool := decide (c.required = "지정")

/-- Whether course `c` is a member of the selection group stored under
`key`: its `selection_group` reference resolves to exactly that key. -/
def memB (key : String) (c : Course) : Bool :=
  match c.selection_group with
  | some g => decide (sgKey c.semester g = key)
  | none => false

/-- Every course carries a non-empty, already-stripped semester — which is
what the Python side guarantees (`generate_course_data` strips values and
drops rows with a blank semester). -/
def semOkB (cd : List Course) : Bool :=
  cd.all (fun c => decide (strTrim c.semester = c.semester) && decide (c.semester ≠ ""))

/-- The group-limit table agrees with the courses on semesters: when a
course's group reference resolves in the table, the stored semester is the
course's own.  The Python construction guarantees this as long as no
`semester ++ "_" ++ group` key collision occurs. -/
def glWF (cd : List Course) (gl : List (String × LimitInfo)) : Bool :=
  cd.all (fun c =>
    match c.selection_group with
    | some g =>
      match alookup (sgKey c.semester g) gl with
      | some li => decide (li.semester = c.semester)
      | none => true
    | none => true)

theorem eq_of_keys_nodup {cd : List Course} (hnd : (cd.map courseKey).Nodup) :
    ∀ {c1 c2 : Course}, c1 ∈ cd → c2 ∈ cd → courseKey c1 = courseKey c2 → c1 = c2 := by
  induction cd with
  | nil => intro c1 c2 h1; simp at h1
  | cons c rest ih =>
    intro c1 c2 h1 h2 hk
    simp only [List.map_cons, List.nodup_cons] at hnd
    rcases List.mem_cons.mp h1 with rfl | h1' <;> rcases List.mem_cons.mp h2 with rfl | h2'
    · rfl
    · exfalso; apply hnd.1; rw [hk]; exact List.mem_map_of_mem courseKey h2'
    · exfalso; apply hnd.1; rw [← hk]; exact List.mem_map_of_mem courseKey h1'
    · exact ih hnd.2 h1' h2' hk

/-! ### List helper lemmas -/

theorem hasName_eq_false {l : List Course} {n : String} :
    hasName l n = false ↔ ∀ c ∈ l, ¬ c.name = n := by
  unfold hasName
  rw [← Bool.not_eq_true, List.any_eq_true]
  simp

theorem hasName_eq_true {l : List Course} {n : String} :
    hasName l n = true ↔ ∃ c ∈ l, c.name = n := by
  unfold hasName
  rw [List.any_eq_true]
  simp

theorem hasName_append (l₁ l₂ : List Course) (n : String) :
    hasName (l₁ ++ l₂) n = (hasName l₁ n || hasName l₂ n) := by
  unfold hasName
  exact List.any_append

theorem filter_comm_bool {α : Type} (p q : α → Bool) (l : List α) :
    (l.filter p).filter q = (l.filter q).filter p := by
  induction l with
  | nil => rfl
  | cons x rest ih =>
    by_cases hp : p x = true <;> by_cases hq : q x = true <;>
      simp [List.filter_cons, hp, hq, ih]

theorem filter_filter_of_imp {α : Type} (p q : α → Bool) (l : List α)
    (h : ∀ e ∈ l, q e = true → p e = true) :
    (l.filter p).filter q = l.filter q := by
  induction l with
  | nil => rfl
  | cons x rest ih =>
    have ih' := ih (fun e he hq => h e (List.mem_cons_of_mem _ he) hq)
    by_cases hq : q x = true
    · have hp := h x (List.mem_cons_self _ _) hq
      simp [List.filter_cons, hp, hq, ih']
    · by_cases hp : p x = true
      · simp [List.filter_cons, hp, hq, ih']
      · simp [List.filter_cons, hp, hq, ih']

theorem filter_append_singleton {α : Type} (p : α → Bool) (l : List α) (a : α) :
    (l ++ [a]).filter p = l.filter p ++ (if p a = true then [a] else []) := by
  rw [List.filter_append]
  by_cases hp : p a = true <;> simp [List.filter_cons, hp]

/-! ### The semester list -/

theorem mem_dedupFirstAux {s : String} :
    ∀ (l : List String) (seen : List String),
      s ∈ dedupFirstAux seen l ↔ s ∈ l ∧ s ∉ seen
  | [], seen => by simp [dedupFirstAux]
  | t :: rest, seen => by
    by_cases ht : t ∈ seen
    · rw [dedupFirstAux, if_pos ht, mem_dedupFirstAux rest seen]
      constructor
      · exact fun h => ⟨List.mem_cons_of_mem _ h.1, h.2⟩
      · rintro ⟨h1, h2⟩
        rcases List.mem_cons.mp h1 with rfl | h1'
        · exact absurd ht h2
        · exact ⟨h1', h2⟩
    · rw [dedupFirstAux, if_neg ht]
      constructor
      · intro h
        rcases List.mem_cons.mp h with rfl | h'
        · exact ⟨List.mem_cons_self _ _, ht⟩
        · have := (mem_dedupFirstAux rest (t :: seen)).mp h'
          exact ⟨List.mem_cons_of_mem _ this.1,
            fun hs => this.2 (List.mem_cons_of_mem _ hs)⟩
      · rintro ⟨h1, h2⟩
        by_cases hst : s = t
        · exact hst ▸ List.mem_cons_self _ _
        · rcases List.mem_cons.mp h1 with rfl | h1'
          · exact absurd rfl hst
          · exact List.mem_cons_of_mem _ ((mem_dedupFirstAux rest (t :: seen)).mpr
              ⟨h1', by simp [hst, h2]⟩)

theorem dedupFirstAux_nodup :
    ∀ (l : List String) (seen : List String), (dedupFirstAux seen l).Nodup
  | [], seen => List.nodup_nil
  | t :: rest, seen => by
    by_cases ht : t ∈ seen
    · rw [dedupFirstAux, if_pos ht]
      exact dedupFirstAux_nodup rest seen
    · rw [dedupFirstAux, if_neg ht]
      refine List.nodup_cons.mpr ⟨?_, dedupFirstAux_nodup rest (t :: seen)⟩
      intro hmem
      exact ((mem_dedupFirstAux rest (t :: seen)).mp hmem).2 (List.mem_cons_self _ _)

theorem insertSorted_perm (s : String) :
    ∀ l : List String, (insertSorted s l).Perm (s :: l)
  | [] => List.Perm.refl _
  | t :: rest => by
    unfold insertSorted
    by_cases h : strLe s t = true
    · rw [if_pos h]
    · rw [if_neg h]
      exact ((insertSorted_perm s rest).cons t).trans (List.Perm.swap s t rest)

theorem sortStrings_perm : ∀ l : List String, (sortStrings l).Perm l
  | [] => List.Perm.refl _
  | t :: rest => by
    unfold sortStrings
    rw [List.foldr_cons]
    exact (insertSorted_perm t _).trans ((sortStrings_perm rest).cons t)

theorem mem_dedupFirst {l : List String} {s : String} :
    s ∈ dedupFirst l ↔ s ∈ l := by
  unfold dedupFirst
  rw [mem_dedupFirstAux]
  simp

theorem mem_semesterListOf {cd : List Course} {s : String} :
    s ∈ semesterListOf cd ↔
      s ∈ cd.map Course.semester ∧ (s ≠ "" ∧ strTrim s ≠ "") := by
  unfold semesterListOf
  rw [(sortStrings_perm _).mem_iff, List.mem_filter, mem_dedupFirst]
  simp

theorem semesterListOf_nodup (cd : List Course) : (semesterListOf cd).Nodup := by
  unfold semesterListOf
  exact (sortStrings_perm _).nodup_iff.mpr ((dedupFirstAux_nodup _ _).filter _)

theorem semOkB_spec {cd : List Course} (h : semOkB cd = true) {c : Course} (hc : c ∈ cd) :
    strTrim c.semester = c.semester ∧ c.semester ≠ "" := by
  unfold semOkB at h
  rw [List.all_eq_true] at h
  have := h c hc
  simp only [Bool.and_eq_true, decide_eq_true_eq] at this
  exact this

theorem glWF_spec {cd : List Course} {gl : List (String × LimitInfo)}
    (h : glWF cd gl = true) {c : Course} (hc : c ∈ cd) {g : String}
    (hg : c.selection_group = some g) {li : LimitInfo}
    (hli : alookup (sgKey c.semester g) gl = some li) :
    li.semester = c.semester := by
  unfold glWF at h
  rw [List.all_eq_true] at h
  have h2 := h c hc
  rw [hg] at h2
  simp only [hli, decide_eq_true_eq] at h2
  exact h2

theorem sem_mem_semesterListOf {cd : List Course} (hok : semOkB cd = true)
    {c : Course} (hc : c ∈ cd) : c.semester ∈ semesterListOf cd := by
  obtain ⟨htrim, hne⟩ := semOkB_spec hok hc
  exact mem_semesterListOf.mpr
    ⟨List.mem_map_of_mem Course.semester hc, hne, htrim.symm ▸ hne⟩

/-! ### The engine invariant -/

theorem alookup_isSome_of_hasName {sem nm : String} {st : SimState}
    (h : hasName (chosenD sem st) nm = true) :
    (alookup sem st.selectedCourses).isSome = true := by
  cases halt : alookup sem st.selectedCourses with
  | some lst => rfl
  | none =>
    unfold chosenD at h
    rw [halt] at h
    simp [hasName] at h

/-- The invariant tying a reachable engine state to the catalog `cd` and
limit table `gl`:

* the chosen map has exactly the semesters of `semesterList` as keys;
* every chosen course is a catalog course filed under its own semester;
* chosen names are unique per semester (the dedup-by-name pushes);
* every group's static fields come from its `gl` entry;
* every group's `selected` array is exactly the chosen courses of the
  group's semester that are members of the group — the `chosen ∩ members`
  view of spec invariant I4. -/
structure EngineInv (cd : List Course) (gl : List (String × LimitInfo))
    (st : SimState) : Prop where
  keysEq : st.selectedCourses.map Prod.fst = semesterListOf cd
  chosenMem : ∀ s : String, ∀ c ∈ chosenD s st, c ∈ cd ∧ c.semester = s
  chosenNames : ∀ s : String, ((chosenD s st).map Course.name).Nodup
  sgStatic : ∀ k gi, alookup k st.selectionGroups = some gi →
    ∃ li, alookup k gl = some li ∧ gi.semester = li.semester ∧
      gi.name = li.group_name ∧ gi.limit = li.limit
  sgSel : ∀ k gi, alookup k st.selectionGroups = some gi →
    gi.selected = (chosenD gi.semester st).filter (memB k)

theorem chosen_key_present {cd : List Course} {st : SimState}
    (hok : semOkB cd = true) (hkeys : st.selectedCourses.map Prod.fst = semesterListOf cd)
    {c : Course} (hc : c ∈ cd) :
    (alookup c.semester st.selectedCourses).isSome = true := by
  apply alookup_isSome_of_mem_keys
  rw [hkeys]
  exact sem_mem_semesterListOf hok hc

theorem inv_push_chosen_only {cd : List Course} {gl : List (String × LimitInfo)} {st : SimState}
    (hinv : EngineInv cd gl st) {semester courseName : String} {course : Course}
    (hcd : course ∈ cd) (hcsem : course.semester = semester)
    (hcname : course.name = courseName)
    (hselF : hasName (chosenD semester st) courseName = false)
    (hnores : ∀ k, memB k course = true → alookup k st.selectionGroups = none) :
    EngineInv cd gl
      { selectedCourses := aset semester (chosenD semester st ++ [course]) st.selectedCourses,
        selectionGroups := st.selectionGroups } := by
  have hnew : ∀ s : String,
      chosenD s ⟨aset semester (chosenD semester st ++ [course]) st.selectedCourses,
        st.selectionGroups⟩
        = if s = semester ∧ (alookup semester st.selectedCourses).isSome = true
          then chosenD semester st ++ [course] else chosenD s st := by
    intro s
    by_cases hs : s = semester
    · subst hs
      cases halt : alookup s st.selectedCourses with
      | none =>
        rw [if_neg (by simp)]
        unfold chosenD
        rw [alookup_aset_self, halt]
        rfl
      | some lst =>
        rw [if_pos ⟨rfl, by simp⟩]
        unfold chosenD
        rw [alookup_aset_self, halt]
        rfl
    · rw [if_neg (fun hand => hs hand.1)]
      unfold chosenD
      rw [alookup_aset_ne hs]
  constructor
  · show (aset semester _ st.selectedCourses).map Prod.fst = _
    rw [aset_keys]
    exact hinv.keysEq
  · intro s c hc
    rw [hnew s] at hc
    by_cases hcond : s = semester ∧ (alookup semester st.selectedCourses).isSome = true
    · rw [if_pos hcond] at hc
      rcases List.mem_append.mp hc with hc | hc
      · exact hcond.1 ▸ hinv.chosenMem semester c hc
      · rw [List.mem_singleton] at hc
        subst hc
        exact ⟨hcd, by rw [hcsem, hcond.1]⟩
    · rw [if_neg hcond] at hc
      exact hinv.chosenMem s c hc
  · intro s
    rw [hnew s]
    by_cases hcond : s = semester ∧ (alookup semester st.selectedCourses).isSome = true
    · rw [if_pos hcond, List.map_append]
      simp only [List.map_cons, List.map_nil]
      have hperm : ((chosenD semester st).map Course.name ++ [course.name]).Perm
          (course.name :: (chosenD semester st).map Course.name) :=
        List.perm_append_singleton _ _
      rw [hperm.nodup_iff, List.nodup_cons]
      refine ⟨?_, hinv.chosenNames semester⟩
      intro hmem
      rcases List.mem_map.mp hmem with ⟨e, he, hename⟩
      exact (hasName_eq_false.mp hselF e he) (by rw [hename, hcname])
    · rw [if_neg hcond]
      exact hinv.chosenNames s
  · exact hinv.sgStatic
  · intro k gi hgi
    have hsel := hinv.sgSel k gi hgi
    rw [hnew gi.semester]
    by_cases hcond : gi.semester = semester ∧ (alookup semester st.selectedCourses).isSome = true
    · rw [if_pos hcond, filter_append_singleton]
      have hmemF : memB k course = false := by
        cases hmb : memB k course with
        | false => rfl
        | true => rw [hnores k hmb] at hgi; exact absurd hgi (by simp)
      rw [hmemF]
      simp only [Bool.false_eq_true, if_false, List.append_nil]
      rw [hsel, hcond.1]
    · rw [if_neg hcond]
      exact hsel

theorem inv_push_both {cd : List Course} {gl : List (String × LimitInfo)} {st : SimState}
    (hok : semOkB cd = true) (hw : glWF cd gl = true)
    (hinv : EngineInv cd gl st) {semester courseName g : String} {course : Course}
    {gi : GroupInfo}
    (hcd : course ∈ cd) (hcsem : course.semester = semester)
    (hcname : course.name = courseName)
    (hg : course.selection_group = some g)
    (hgi : alookup (sgKey semester g) st.selectionGroups = some gi)
    (hselF : hasName (chosenD semester st) courseName = false) :
    EngineInv cd gl
      { selectedCourses := aset semester (chosenD semester st ++ [course]) st.selectedCourses,
        selectionGroups := aset (sgKey semester g)
          { gi with selected := gi.selected ++ [course] } st.selectionGroups } := by
  have hpres : (alookup semester st.selectedCourses).isSome = true := by
    have := chosen_key_present hok hinv.keysEq hcd
    rwa [hcsem] at this
  have hgisem : gi.semester = semester := by
    obtain ⟨li, hli, hsem, _, _⟩ := hinv.sgStatic _ gi hgi
    have hli2 : alookup (sgKey course.semester g) gl = some li := by rwa [hcsem]
    have := glWF_spec hw hcd hg hli2
    rw [hsem, this, hcsem]
  have hnew : ∀ s : String,
      chosenD s ⟨aset semester (chosenD semester st ++ [course]) st.selectedCourses,
        aset (sgKey semester g) { gi with selected := gi.selected ++ [course] } st.selectionGroups⟩
        = if s = semester then chosenD semester st ++ [course] else chosenD s st := by
    intro s
    by_cases hs : s = semester
    · subst hs
      rw [if_pos rfl]
      unfold chosenD
      rw [alookup_aset_self]
      cases halt : alookup s st.selectedCourses with
      | none => rw [halt] at hpres; simp at hpres
      | some lst => rfl
    · rw [if_neg hs]
      unfold chosenD
      rw [alookup_aset_ne hs]
  constructor
  · show (aset semester _ st.selectedCourses).map Prod.fst = _
    rw [aset_keys]
    exact hinv.keysEq
  · intro s c hc
    rw [hnew s] at hc
    by_cases hs : s = semester
    · rw [if_pos hs] at hc
      rcases List.mem_append.mp hc with hc | hc
      · exact hs ▸ hinv.chosenMem semester c hc
      · rw [List.mem_singleton] at hc
        subst hc
        exact ⟨hcd, by rw [hcsem, hs]⟩
    · rw [if_neg hs] at hc
      exact hinv.chosenMem s c hc
  · intro s
    rw [hnew s]
    by_cases hs : s = semester
    · rw [if_pos hs, List.map_append]
      simp only [List.map_cons, List.map_nil]
      have hperm : ((chosenD semester st).map Course.name ++ [course.name]).Perm
          (course.name :: (chosenD semester st).map Course.name) :=
        List.perm_append_singleton _ _
      rw [hperm.nodup_iff, List.nodup_cons]
      refine ⟨?_, hinv.chosenNames semester⟩
      intro hmem
      rcases List.mem_map.mp hmem with ⟨e, he, hename⟩
      exact (hasName_eq_false.mp hselF e he) (by rw [hename, hcname])
    · rw [if_neg hs]
      exact hinv.chosenNames s
  · intro k gi2 hgi2
    show ∃ li, _
    by_cases hk : k = sgKey semester g
    · subst hk
      rw [alookup_aset_self, hgi] at hgi2
      have hgi2e : ({ gi with selected := gi.selected ++ [course] } : GroupInfo) = gi2 :=
        Option.some.inj hgi2
      obtain ⟨li, hli, h1, h2, h3⟩ := hinv.sgStatic _ gi hgi
      exact ⟨li, hli, by rw [← hgi2e]; exact h1, by rw [← hgi2e]; exact h2,
        by rw [← hgi2e]; exact h3⟩
    · rw [alookup_aset_ne hk] at hgi2
      exact hinv.sgStatic k gi2 hgi2
  · intro k gi2 hgi2
    by_cases hk : k = sgKey semester g
    · subst hk
      rw [alookup_aset_self, hgi] at hgi2
      have hgi2e : ({ gi with selected := gi.selected ++ [course] } : GroupInfo) = gi2 :=
        Option.some.inj hgi2
      rw [← hgi2e]
      show gi.selected ++ [course] = _
      have hgisem2 : (({ gi with selected := gi.selected ++ [course] } : GroupInfo)).semester
          = semester := hgisem
      rw [hnew]
      simp only [hgisem2, hgisem, if_pos]
      rw [filter_append_singleton]
      have hmemT : memB (sgKey semester g) course = true := by
        unfold memB
        rw [hg, hcsem]
        simp
      rw [hmemT, if_pos rfl]
      have := hinv.sgSel _ gi hgi
      rw [hgisem] at this
      rw [← this]
    · rw [alookup_aset_ne hk] at hgi2
      have hsel2 := hinv.sgSel k gi2 hgi2
      rw [hnew gi2.semester]
      by_cases hs : gi2.semester = semester
      · rw [if_pos hs, filter_append_singleton]
        have hmemF : memB k course = false := by
          cases hmb : memB k course with
          | false => rfl
          | true =>
            exfalso
            have hkey : sgKey course.semester g = k := by
              unfold memB at hmb
              rw [hg] at hmb
              simpa using hmb
            exact hk (by rw [← hkey, hcsem])
        rw [hmemF]
        simp only [Bool.false_eq_true, if_false, List.append_nil]
        rw [hsel2, hs]
      · rw [if_neg hs]
        exact hsel2

theorem inv_remove_chosen_only {cd : List Course} {gl : List (String × LimitInfo)}
    {st : SimState}
    (hnd : (cd.map courseKey).Nodup) (hinv : EngineInv cd gl st)
    {semester courseName : String} {course : Course}
    (hcd : course ∈ cd) (hcsem : course.semester = semester)
    (hcname : course.name = courseName)
    (hselT : hasName (chosenD semester st) courseName = true)
    (hnores : ∀ k, memB k course = true → alookup k st.selectionGroups = none) :
    EngineInv cd gl
      ⟨aset semester ((chosenD semester st).filter (fun c => !(decide (c.name = courseName))))
          st.selectedCourses,
        st.selectionGroups⟩ := by
  have hpres : (alookup semester st.selectedCourses).isSome = true :=
    alookup_isSome_of_hasName hselT
  have hnew : ∀ s : String,
      chosenD s ⟨aset semester
          ((chosenD semester st).filter (fun c => !(decide (c.name = courseName))))
          st.selectedCourses, st.selectionGroups⟩
        = if s = semester
          then (chosenD semester st).filter (fun c => !(decide (c.name = courseName)))
          else chosenD s st := by
    intro s
    by_cases hs : s = semester
    · subst hs
      rw [if_pos rfl]
      unfold chosenD
      rw [alookup_aset_self]
      cases halt : alookup s st.selectedCourses with
      | none => rw [halt] at hpres; simp at hpres
      | some lst => rfl
    · rw [if_neg hs]
      unfold chosenD
      rw [alookup_aset_ne hs]
  have hname_mem : ∀ e ∈ chosenD semester st, e.name = courseName → e = course := by
    intro e he hename
    obtain ⟨hecd, hesem⟩ := hinv.chosenMem semester e he
    apply eq_of_keys_nodup hnd hecd hcd
    unfold courseKey
    rw [hesem, hename, hcsem, hcname]
  constructor
  · show (aset semester _ st.selectedCourses).map Prod.fst = _
    rw [aset_keys]
    exact hinv.keysEq
  · intro s c hc
    rw [hnew s] at hc
    by_cases hs : s = semester
    · rw [if_pos hs] at hc
      exact hs ▸ hinv.chosenMem semester c (List.mem_of_mem_filter hc)
    · rw [if_neg hs] at hc
      exact hinv.chosenMem s c hc
  · intro s
    rw [hnew s]
    by_cases hs : s = semester
    · rw [if_pos hs]
      exact (hinv.chosenNames semester).sublist
        (List.Sublist.map Course.name (List.filter_sublist _))
    · rw [if_neg hs]
      exact hinv.chosenNames s
  · exact hinv.sgStatic
  · intro k gi hgi
    have hsel := hinv.sgSel k gi hgi
    rw [hnew gi.semester]
    by_cases hs : gi.semester = semester
    · rw [if_pos hs]
      rw [filter_filter_of_imp]
      · rw [hsel, hs]
      · intro e he hq
        cases hn : (decide (e.name = courseName) : Bool) with
        | false => simp [hn]
        | true =>
          exfalso
          have hec : e = course := hname_mem e he (of_decide_eq_true hn)
          rw [hec] at hq
          rw [hnores k hq] at hgi
          exact absurd hgi (by simp)
    · rw [if_neg hs]
      exact hsel

theorem inv_remove_both {cd : List Course} {gl : List (String × LimitInfo)} {st : SimState}
    (hnd : (cd.map courseKey).Nodup) (hw : glWF cd gl = true)
    (hinv : EngineInv cd gl st) {semester courseName g : String} {course : Course}
    {gi : GroupInfo}
    (hcd : course ∈ cd) (hcsem : course.semester = semester)
    (hcname : course.name = courseName)
    (hg : course.selection_group = some g)
    (hgi : alookup (sgKey semester g) st.selectionGroups = some gi)
    (hselT : hasName (chosenD semester st) courseName = true) :
    EngineInv cd gl
      ⟨aset semester ((chosenD semester st).filter (fun c => !(decide (c.name = courseName))))
          st.selectedCourses,
        aset (sgKey semester g)
          { gi with selected := gi.selected.filter (fun c => !(decide (c.name = courseName))) }
          st.selectionGroups⟩ := by
  have hpres : (alookup semester st.selectedCourses).isSome = true :=
    alookup_isSome_of_hasName hselT
  have hgisem : gi.semester = semester := by
    obtain ⟨li, hli, hsem, _, _⟩ := hinv.sgStatic _ gi hgi
    have hli2 : alookup (sgKey course.semester g) gl = some li := by rwa [hcsem]
    have := glWF_spec hw hcd hg hli2
    rw [hsem, this, hcsem]
  have hnew : ∀ s : String,
      chosenD s ⟨aset semester
          ((chosenD semester st).filter (fun c => !(decide (c.name = courseName))))
          st.selectedCourses,
        aset (sgKey semester g)
          { gi with selected := gi.selected.filter (fun c => !(decide (c.name = courseName))) }
          st.selectionGroups⟩
        = if s = semester
          then (chosenD semester st).filter (fun c => !(decide (c.name = courseName)))
          else chosenD s st := by
    intro s
    by_cases hs : s = semester
    · subst hs
      rw [if_pos rfl]
      unfold chosenD
      rw [alookup_aset_self]
      cases halt : alookup s st.selectedCourses with
      | none => rw [halt] at hpres; simp at hpres
      | some lst => rfl
    · rw [if_neg hs]
      unfold chosenD
      rw [alookup_aset_ne hs]
  have hname_mem : ∀ e ∈ chosenD semester st, e.name = courseName → e = course := by
    intro e he hename
    obtain ⟨hecd, hesem⟩ := hinv.chosenMem semester e he
    apply eq_of_keys_nodup hnd hecd hcd
    unfold courseKey
    rw [hesem, hename, hcsem, hcname]
  constructor
  · show (aset semester _ st.selectedCourses).map Prod.fst = _
    rw [aset_keys]
    exact hinv.keysEq
  · intro s c hc
    rw [hnew s] at hc
    by_cases hs : s = semester
    · rw [if_pos hs] at hc
      exact hs ▸ hinv.chosenMem semester c (List.mem_of_mem_filter hc)
    · rw [if_neg hs] at hc
      exact hinv.chosenMem s c hc
  · intro s
    rw [hnew s]
    by_cases hs : s = semester
    · rw [if_pos hs]
      exact (hinv.chosenNames semester).sublist
        (List.Sublist.map Course.name (List.filter_sublist _))
    · rw [if_neg hs]
      exact hinv.chosenNames s
  · intro k gi2 hgi2
    by_cases hk : k = sgKey semester g
    · subst hk
      rw [alookup_aset_self, hgi] at hgi2
      have hgi2e : ({ gi with selected := gi.selected.filter (fun c => !(decide (c.name = courseName))) } : GroupInfo) = gi2 :=
        Option.some.inj hgi2
      obtain ⟨li, hli, h1, h2, h3⟩ := hinv.sgStatic _ gi hgi
      exact ⟨li, hli, by rw [← hgi2e]; exact h1, by rw [← hgi2e]; exact h2,
        by rw [← hgi2e]; exact h3⟩
    · rw [alookup_aset_ne hk] at hgi2
      exact hinv.sgStatic k gi2 hgi2
  · intro k gi2 hgi2
    by_cases hk : k = sgKey semester g
    · subst hk
      rw [alookup_aset_self, hgi] at hgi2
      have hgi2e : ({ gi with selected := gi.selected.filter (fun c => !(decide (c.name = courseName))) } : GroupInfo) = gi2 :=
        Option.some.inj hgi2
      rw [← hgi2e]
      show List.filter (fun c => !(decide (c.name = courseName))) gi.selected
        = List.filter (memB (sgKey semester g)) (chosenD gi.semester _)
      rw [hnew, if_pos hgisem]
      rw [hinv.sgSel _ gi hgi, hgisem]
      exact filter_comm_bool _ _ _
    · rw [alookup_aset_ne hk] at hgi2
      have hsel2 := hinv.sgSel k gi2 hgi2
      rw [hnew gi2.semester]
      by_cases hs : gi2.semester = semester
      · rw [if_pos hs]
        rw [filter_filter_of_imp]
        · rw [hsel2, hs]
        · intro e he hq
          cases hn : (decide (e.name = courseName) : Bool) with
          | false => simp [hn]
          | true =>
            exfalso
            have hec : e = course := hname_mem e he (of_decide_eq_true hn)
            have hkey : sgKey course.semester g = k := by
              unfold memB at hq
              rw [hec, hg] at hq
              simpa using hq
            exact hk (by rw [← hkey, hcsem])
      · rw [if_neg hs]
        exact hsel2

theorem toggle_select_resolved_full (cd : List Course) (st : SimState)
    (semester courseName : String) (course : Course) (g : String) (gi : GroupInfo)
    (hfind : findCourse cd semester courseName = some course)
    (hnot : hasName (chosenD semester st) courseName = false)
    (hg : course.selection_group = some g)
    (hgi : alookup (sgKey semester g) st.selectionGroups = some gi)
    (hfull : gi.limit ≤ gi.selected.length) :
    toggleCourse cd st semester courseName true
      = (st, ToggleOutcome.quotaAlert gi.name gi.limit) := by
  unfold toggleCourse
  rw [hfind]
  simp only [hnot, hg, hgi, Bool.not_false, Bool.and_self, if_true, hfull, if_pos]

theorem memB_key {course : Course} {g : String} (hg : course.selection_group = some g)
    {k : String} (hmb : memB k course = true) : sgKey course.semester g = k := by
  unfold memB at hmb
  rw [hg] at hmb
  simpa using hmb

theorem memB_self {course : Course} {g : String} (hg : course.selection_group = some g) :
    memB (sgKey course.semester g) course = true := by
  unfold memB
  rw [hg]
  simp

/-- A toggle either leaves the whole state unchanged, or performs exactly
one of the four updates of the source: select with or without a resolved
group, deselect with or without a resolved group. -/
theorem toggle_preserves_inv {cd : List Course} {gl : List (String × LimitInfo)} {st : SimState}
    (hok : semOkB cd = true) (hnd : (cd.map courseKey).Nodup) (hw : glWF cd gl = true)
    (hinv : EngineInv cd gl st) (semester courseName : String) (chk : Bool) :
    EngineInv cd gl (toggleCourse cd st semester courseName chk).1 := by
  cases hfind : findCourse cd semester courseName with
  | none =>
    rw [toggle_unknown_silent_noop cd st semester courseName chk hfind]
    exact hinv
  | some course =>
    obtain ⟨hcd, hcsem, hcname⟩ := findCourse_props hfind
    by_cases hsel : hasName (chosenD semester st) courseName = true
    · cases chk with
      | true =>
        rw [toggle_noop cd st semester courseName true course hfind hsel]
        exact hinv
      | false =>
        cases hg : course.selection_group with
        | none =>
          rw [toggle_deselect_nogroup cd st semester courseName course hfind hsel hg]
          refine inv_remove_chosen_only hnd hinv hcd hcsem hcname hsel ?_
          intro k hmb
          unfold memB at hmb
          rw [hg] at hmb
          simp at hmb
        | some g =>
          cases hgi : alookup (sgKey semester g) st.selectionGroups with
          | none =>
            rw [toggle_deselect_unresolved cd st semester courseName course g hfind hsel hg hgi]
            refine inv_remove_chosen_only hnd hinv hcd hcsem hcname hsel ?_
            intro k hmb
            rw [← memB_key hg hmb, hcsem]
            exact hgi
          | some gi =>
            rw [toggle_deselect_resolved cd st semester courseName course g gi hfind hsel hg hgi]
            exact inv_remove_both hnd hw hinv hcd hcsem hcname hg hgi hsel
    · have hselF : hasName (chosenD semester st) courseName = false := by
        cases h2 : hasName (chosenD semester st) courseName with
        | false => rfl
        | true => exact absurd h2 hsel
      cases chk with
      | false =>
        rw [toggle_noop cd st semester courseName false course hfind hselF]
        exact hinv
      | true =>
        cases hg : course.selection_group with
        | none =>
          rw [toggle_select_nogroup cd st semester courseName course hfind hselF hg]
          refine inv_push_chosen_only hinv hcd hcsem hcname hselF ?_
          intro k hmb
          unfold memB at hmb
          rw [hg] at hmb
          simp at hmb
        | some g =>
          cases hgi : alookup (sgKey semester g) st.selectionGroups with
          | none =>
            rw [toggle_select_unresolved cd st semester courseName course g hfind hselF hg hgi]
            refine inv_push_chosen_only hinv hcd hcsem hcname hselF ?_
            intro k hmb
            rw [← memB_key hg hmb, hcsem]
            exact hgi
          | some gi =>
            by_cases hfull : gi.limit ≤ gi.selected.length
            · rw [toggle_select_resolved_full cd st semester courseName course g gi hfind
                hselF hg hgi hfull]
              exact hinv
            · rw [toggle_select_resolved_notfull cd st semester courseName course g gi hfind
                hselF hg hgi (Nat.lt_of_not_le hfull)]
              exact inv_push_both hok hw hinv hcd hcsem hcname hg hgi hselF

theorem runOps_preserves_inv {cd : List Course} {gl : List (String × LimitInfo)}
    (hok : semOkB cd = true) (hnd : (cd.map courseKey).Nodup) (hw : glWF cd gl = true) :
    ∀ (ops : List (String × String × Bool)) {st : SimState}, EngineInv cd gl st →
      EngineInv cd gl (runOps cd st ops)
  | [], _, hinv => hinv
  | (sem, nm, chk) :: rest, _, hinv =>
    runOps_preserves_inv hok hnd hw rest (toggle_preserves_inv hok hnd hw hinv sem nm chk)

/-- Shape of the `selectionGroups` component after one toggle: unchanged,
or one group gained the toggled course (only after passing the quota
check), or one group had a name filtered out. -/
theorem toggle_groups_shape (cd : List Course) (st : SimState)
    (semester courseName : String) (chk : Bool) :
    (toggleCourse cd st semester courseName chk).1.selectionGroups = st.selectionGroups ∨
    (∃ key gi course, alookup key st.selectionGroups = some gi ∧
      gi.selected.length < gi.limit ∧
      (toggleCourse cd st semester courseName chk).1.selectionGroups
        = aset key { gi with selected := gi.selected ++ [course] } st.selectionGroups) ∨
    (∃ key gi, alookup key st.selectionGroups = some gi ∧
      (toggleCourse cd st semester courseName chk).1.selectionGroups
        = aset key { gi with selected := gi.selected.filter (fun c => !(decide (c.name = courseName))) } st.selectionGroups) := by
  cases hfind : findCourse cd semester courseName with
  | none =>
    left
    rw [toggle_unknown_silent_noop cd st semester courseName chk hfind]
  | some course =>
    by_cases hsel : hasName (chosenD semester st) courseName = true
    · cases chk with
      | true =>
        left
        rw [toggle_noop cd st semester courseName true course hfind hsel]
      | false =>
        cases hg : course.selection_group with
        | none =>
          left
          rw [toggle_deselect_nogroup cd st semester courseName course hfind hsel hg]
        | some g =>
          cases hgi : alookup (sgKey semester g) st.selectionGroups with
          | none =>
            left
            rw [toggle_deselect_unresolved cd st semester courseName course g hfind hsel hg hgi]
          | some gi =>
            right; right
            refine ⟨sgKey semester g, gi, hgi, ?_⟩
            rw [toggle_deselect_resolved cd st semester courseName course g gi hfind hsel hg hgi]
    · have hselF : hasName (chosenD semester st) courseName = false := by
        cases h2 : hasName (chosenD semester st) courseName with
        | false => rfl
        | true => exact absurd h2 hsel
      cases chk with
      | false =>
        left
        rw [toggle_noop cd st semester courseName false course hfind hselF]
      | true =>
        cases hg : course.selection_group with
        | none =>
          left
          rw [toggle_select_nogroup cd st semester courseName course hfind hselF hg]
        | some g =>
          cases hgi : alookup (sgKey semester g) st.selectionGroups with
          | none =>
            left
            rw [toggle_select_unresolved cd st semester courseName course g hfind hselF hg hgi]
          | some gi =>
            by_cases hfull : gi.limit ≤ gi.selected.length
            · left
              rw [toggle_select_resolved_full cd st semester courseName course g gi hfind
                hselF hg hgi hfull]
            · right; left
              refine ⟨sgKey semester g, gi, course, hgi, Nat.lt_of_not_le hfull, ?_⟩
              rw [toggle_select_resolved_notfull cd st semester courseName course g gi hfind
                hselF hg hgi (Nat.lt_of_not_le hfull)]

/-- Groups containing at least one Elective course never hold more than
`limit` selections.  (Groups overfilled with Required courses at
initialization can exceed the limit, but no Elective can ever join them.) -/
def ElectiveQuota (st : SimState) : Prop :=
  ∀ k gi, alookup k st.selectionGroups = some gi →
    (∃ e ∈ gi.selected, ¬ e.required = "지정") → gi.selected.length ≤ gi.limit

/-- Every group is within its limit. -/
def QuotaOk (st : SimState) : Prop :=
  ∀ k gi, alookup k st.selectionGroups = some gi → gi.selected.length ≤ gi.limit

theorem toggle_preserves_electiveQuota {cd : List Course} {st : SimState}
    (h : ElectiveQuota st) (semester courseName : String) (chk : Bool) :
    ElectiveQuota (toggleCourse cd st semester courseName chk).1 := by
  rcases toggle_groups_shape cd st semester courseName chk with hsh | hsh | hsh
  · intro k gi hgi
    rw [hsh] at hgi
    exact h k gi hgi
  · obtain ⟨key, gi0, course, hgi0, hroom, hsh⟩ := hsh
    intro k gi hgi hex
    rw [hsh] at hgi
    by_cases hk : k = key
    · subst hk
      rw [alookup_aset_self, hgi0] at hgi
      have he : ({ gi0 with selected := gi0.selected ++ [course] } : GroupInfo) = gi :=
        Option.some.inj hgi
      rw [← he]
      show (gi0.selected ++ [course]).length ≤ gi0.limit
      rw [List.length_append, List.length_singleton]
      exact hroom
    · rw [alookup_aset_ne hk] at hgi
      exact h k gi hgi hex
  · obtain ⟨key, gi0, hgi0, hsh⟩ := hsh
    intro k gi hgi hex
    rw [hsh] at hgi
    by_cases hk : k = key
    · subst hk
      rw [alookup_aset_self, hgi0] at hgi
      have he : ({ gi0 with selected := gi0.selected.filter (fun c => !(decide (c.name = courseName))) } : GroupInfo) = gi :=
        Option.some.inj hgi
      rw [← he]
      show (gi0.selected.filter _).length ≤ gi0.limit
      rw [← he] at hex
      obtain ⟨e, he2, hereq⟩ := hex
      have hlen : gi0.selected.length ≤ gi0.limit :=
        h k gi0 hgi0 ⟨e, List.mem_of_mem_filter he2, hereq⟩
      exact le_trans (List.length_filter_le _ _) hlen
    · rw [alookup_aset_ne hk] at hgi
      exact h k gi hgi hex

theorem toggle_preserves_quotaOk {cd : List Course} {st : SimState}
    (h : QuotaOk st) (semester courseName : String) (chk : Bool) :
    QuotaOk (toggleCourse cd st semester courseName chk).1 := by
  rcases toggle_groups_shape cd st semester courseName chk with hsh | hsh | hsh
  · intro k gi hgi
    rw [hsh] at hgi
    exact h k gi hgi
  · obtain ⟨key, gi0, course, hgi0, hroom, hsh⟩ := hsh
    intro k gi hgi
    rw [hsh] at hgi
    by_cases hk : k = key
    · subst hk
      rw [alookup_aset_self, hgi0] at hgi
      have he : ({ gi0 with selected := gi0.selected ++ [course] } : GroupInfo) = gi :=
        Option.some.inj hgi
      rw [← he]
      show (gi0.selected ++ [course]).length ≤ gi0.limit
      rw [List.length_append, List.length_singleton]
      exact hroom
    · rw [alookup_aset_ne hk] at hgi
      exact h k gi hgi
  · obtain ⟨key, gi0, hgi0, hsh⟩ := hsh
    intro k gi hgi
    rw [hsh] at hgi
    by_cases hk : k = key
    · subst hk
      rw [alookup_aset_self, hgi0] at hgi
      have he : ({ gi0 with selected := gi0.selected.filter (fun c => !(decide (c.name = courseName))) } : GroupInfo) = gi :=
        Option.some.inj hgi
      rw [← he]
      exact le_trans (List.length_filter_le _ _) (h k gi0 hgi0)
    · rw [alookup_aset_ne hk] at hgi
      exact h k gi hgi

theorem runOps_preserves_electiveQuota {cd : List Course} :
    ∀ (ops : List (String × String × Bool)) {st : SimState}, ElectiveQuota st →
      ElectiveQuota (runOps cd st ops)
  | [], _, h => h
  | (sem, nm, chk) :: rest, _, h =>
    runOps_preserves_electiveQuota rest (toggle_preserves_electiveQuota h sem nm chk)

theorem runOps_preserves_quotaOk {cd : List Course} :
    ∀ (ops : List (String × String × Bool)) {st : SimState}, QuotaOk st →
      QuotaOk (runOps cd st ops)
  | [], _, h => h
  | (sem, nm, chk) :: rest, _, h =>
    runOps_preserves_quotaOk rest (toggle_preserves_quotaOk h sem nm chk)

/-! ### Characterizing initialization -/

theorem addRequiredGroup_selectedCourses (st : SimState) (c : Course) :
    (addRequiredGroup st c).selectedCourses = st.selectedCourses := by
  unfold addRequiredGroup
  cases hg : c.selection_group with
  | none => rfl
  | some g =>
    cases hgi : alookup (sgKey c.semester g) st.selectionGroups with
    | none => simp only [hgi]
    | some gi =>
      simp only [hgi]
      by_cases hn : hasName gi.selected c.name = true
      · rw [if_pos hn]
      · rw [if_neg hn]

theorem addRequiredChosen_selectionGroups (st : SimState) (c : Course) :
    (addRequiredChosen st c).selectionGroups = st.selectionGroups := by
  unfold addRequiredChosen
  cases halt : alookup c.semester st.selectedCourses with
  | none => simp only [halt]
  | some lst =>
    simp only [halt]
    by_cases hn : hasName lst c.name = true
    · rw [if_pos hn]
    · rw [if_neg hn]

theorem chosenD_addRequired (st : SimState) (c0 : Course) (s : String) :
    chosenD s (addRequired st c0)
      = if c0.required = "지정" ∧ s = c0.semester
           ∧ (alookup c0.semester st.selectedCourses).isSome = true
           ∧ hasName (chosenD c0.semester st) c0.name = false
        then chosenD c0.semester st ++ [c0]
        else chosenD s st := by
  by_cases hr : c0.required = "지정"
  · have hred : addRequired st c0 = addRequiredGroup (addRequiredChosen st c0) c0 := by
      unfold addRequired
      rw [if_pos hr]
    have hsame : chosenD s (addRequired st c0) = chosenD s (addRequiredChosen st c0) := by
      unfold chosenD
      rw [hred, addRequiredGroup_selectedCourses]
    rw [hsame]
    cases halt : alookup c0.semester st.selectedCourses with
    | none =>
      rw [if_neg (by simp)]
      unfold addRequiredChosen
      simp only [halt]
    | some lst =>
      have hlst : chosenD c0.semester st = lst := by
        unfold chosenD
        rw [halt]
        rfl
      by_cases hn : hasName lst c0.name = true
      · rw [if_neg (by rw [hlst, hn]; simp)]
        unfold addRequiredChosen
        simp only [halt]
        rw [if_pos hn]
      · have hnf : hasName lst c0.name = false := by
          cases h2 : hasName lst c0.name with
          | false => rfl
          | true => exact absurd h2 hn
        have hstep : addRequiredChosen st c0
            = { st with selectedCourses := aset c0.semester (lst ++ [c0]) st.selectedCourses } := by
          unfold addRequiredChosen
          simp only [halt]
          rw [if_neg hn]
        rw [hstep]
        by_cases hs : s = c0.semester
        · rw [if_pos ⟨hr, hs, rfl, by rw [hlst]; exact hnf⟩]
          show (alookup s (aset c0.semester (lst ++ [c0]) st.selectedCourses)).getD [] = _
          rw [hs, alookup_aset_self, halt, hlst]
          rfl
        · rw [if_neg (fun hand => hs hand.2.1)]
          show (alookup s (aset c0.semester (lst ++ [c0]) st.selectedCourses)).getD [] = _
          rw [alookup_aset_ne hs]
          rfl
  · unfold addRequired
    rw [if_neg hr, if_neg (fun hand => hr hand.1)]

theorem groups_addRequired_lookup (st : SimState) (c0 : Course) (k : String) :
    alookup k (addRequired st c0).selectionGroups
      = if c0.required = "지정" ∧ memB k c0 = true then
          match alookup k st.selectionGroups with
          | some gi => some (if hasName gi.selected c0.name = true then gi
              else { gi with selected := gi.selected ++ [c0] })
          | none => none
        else alookup k st.selectionGroups := by
  by_cases hr : c0.required = "지정"
  · have hred : addRequired st c0 = addRequiredGroup (addRequiredChosen st c0) c0 := by
      unfold addRequired
      rw [if_pos hr]
    rw [hred]
    cases hg : c0.selection_group with
    | none =>
      have hmb : memB k c0 = false := by unfold memB; rw [hg]
      rw [if_neg (by rw [hmb]; simp)]
      unfold addRequiredGroup
      simp only [hg, addRequiredChosen_selectionGroups]
    | some g =>
      cases hgi : alookup (sgKey c0.semester g) st.selectionGroups with
      | none =>
        have hgrp : (addRequiredGroup (addRequiredChosen st c0) c0).selectionGroups
            = st.selectionGroups := by
          unfold addRequiredGroup
          simp only [hg, addRequiredChosen_selectionGroups, hgi]
        rw [hgrp]
        by_cases hmb : memB k c0 = true
        · rw [if_pos ⟨hr, hmb⟩, ← memB_key hg hmb, hgi]
        · rw [if_neg (fun hand => hmb hand.2)]
      | some gi =>
        by_cases hn : hasName gi.selected c0.name = true
        · have hgrp : (addRequiredGroup (addRequiredChosen st c0) c0).selectionGroups
              = st.selectionGroups := by
            unfold addRequiredGroup
            simp only [hg, addRequiredChosen_selectionGroups, hgi]
            rw [if_pos hn, addRequiredChosen_selectionGroups]
          rw [hgrp]
          by_cases hmb : memB k c0 = true
          · rw [if_pos ⟨hr, hmb⟩, ← memB_key hg hmb, hgi]
            simp only [hn, if_pos]
          · rw [if_neg (fun hand => hmb hand.2)]
        · have hgrp : (addRequiredGroup (addRequiredChosen st c0) c0).selectionGroups
              = aset (sgKey c0.semester g) { gi with selected := gi.selected ++ [c0] }
                  st.selectionGroups := by
            unfold addRequiredGroup
            simp only [hg, addRequiredChosen_selectionGroups, hgi]
            rw [if_neg hn]
          rw [hgrp]
          by_cases hmb : memB k c0 = true
          · have hkey := memB_key hg hmb
            rw [if_pos ⟨hr, hmb⟩, ← hkey, hgi, alookup_aset_self, hgi]
            simp only [hn, Bool.false_eq_true, if_false, Option.map_some]
            rfl
          · rw [if_neg (fun hand => hmb hand.2)]
            apply alookup_aset_ne
            intro hk
            exact hmb (hk ▸ memB_self hg)
  · unfold addRequired
    rw [if_neg hr, if_neg (fun hand => hr hand.1)]


theorem alookup_isSome_iff_mem {β : Type} (key : String) :
    ∀ l : List (String × β), (alookup key l).isSome = true ↔ key ∈ l.map Prod.fst
  | [] => by simp
  | (k, v) :: rest => by
    by_cases hk : k = key
    · simp [alookup_cons, hk]
    · simp only [alookup_cons, hk, if_false, List.map_cons, List.mem_cons]
      rw [alookup_isSome_iff_mem key rest]
      constructor
      · exact Or.inr
      · rintro (h | h)
        · exact absurd h.symm hk
        · exact h

theorem addRequired_selected_keys (st : SimState) (c0 : Course) :
    (addRequired st c0).selectedCourses.map Prod.fst = st.selectedCourses.map Prod.fst := by
  by_cases hr : c0.required = "지정"
  · have hch : (addRequired st c0).selectedCourses = (addRequiredChosen st c0).selectedCourses := by
      unfold addRequired
      rw [if_pos hr, addRequiredGroup_selectedCourses]
    rw [hch]
    unfold addRequiredChosen
    cases halt : alookup c0.semester st.selectedCourses with
    | none => simp only [halt]
    | some lst =>
      simp only [halt]
      by_cases hn : hasName lst c0.name = true
      · rw [if_pos hn]
      · rw [if_neg hn]
        show (aset c0.semester (lst ++ [c0]) st.selectedCourses).map Prod.fst = _
        rw [aset_keys]
  · unfold addRequired
    rw [if_neg hr]

theorem addRequired_group_keys (st : SimState) (c0 : Course) :
    (addRequired st c0).selectionGroups.map Prod.fst = st.selectionGroups.map Prod.fst := by
  by_cases hr : c0.required = "지정"
  · have hgr : (addRequired st c0).selectionGroups
        = (addRequiredGroup (addRequiredChosen st c0) c0).selectionGroups := by
      unfold addRequired
      rw [if_pos hr]
    rw [hgr]
    unfold addRequiredGroup
    cases hg : c0.selection_group with
    | none => rw [addRequiredChosen_selectionGroups]
    | some g =>
      cases hgi : alookup (sgKey c0.semester g) (addRequiredChosen st c0).selectionGroups with
      | none =>
        simp only [hgi]
        rw [addRequiredChosen_selectionGroups]
      | some gi =>
        simp only [hgi]
        by_cases hn : hasName gi.selected c0.name = true
        · rw [if_pos hn, addRequiredChosen_selectionGroups]
        · rw [if_neg hn]
          show (aset (sgKey c0.semester g) _ (addRequiredChosen st c0).selectionGroups).map Prod.fst = _
          rw [aset_keys, addRequiredChosen_selectionGroups]
  · unfold addRequired
    rw [if_neg hr]

theorem fold_selected_keys :
    ∀ (cds : List Course) (st : SimState),
      (cds.foldl addRequired st).selectedCourses.map Prod.fst
        = st.selectedCourses.map Prod.fst
  | [], _ => rfl
  | c0 :: rest, st => by
    rw [List.foldl_cons, fold_selected_keys rest (addRequired st c0),
      addRequired_selected_keys]

theorem fold_group_keys :
    ∀ (cds : List Course) (st : SimState),
      (cds.foldl addRequired st).selectionGroups.map Prod.fst
        = st.selectionGroups.map Prod.fst
  | [], _ => rfl
  | c0 :: rest, st => by
    rw [List.foldl_cons, fold_group_keys rest (addRequired st c0), addRequired_group_keys]

theorem fold_addRequired_chosen :
    ∀ (cds : List Course) (st : SimState),
      (∀ c ∈ cds, c.required = "지정" → (alookup c.semester st.selectedCourses).isSome = true) →
      (∀ c ∈ cds, c.required = "지정" → hasName (chosenD c.semester st) c.name = false) →
      (cds.map courseKey).Nodup →
      ∀ s, chosenD s (cds.foldl addRequired st)
        = chosenD s st ++ cds.filter (fun c => requiredB c && decide (c.semester = s))
  | [], st, _, _, _, s => by simp
  | c0 :: rest, st, hkeys, hfresh, hnd, s => by
    rw [List.foldl_cons]
    have hndc : (courseKey c0 :: rest.map courseKey).Nodup := by simpa using hnd
    have hnd2 := (List.nodup_cons.mp hndc).2
    by_cases hr : c0.required = "지정"
    · have hrB : requiredB c0 = true := decide_eq_true hr
      have hksome := hkeys c0 (List.mem_cons_self _ _) hr
      have hfr := hfresh c0 (List.mem_cons_self _ _) hr
      have hname_ne : ∀ c ∈ rest, c.semester = c0.semester → c.name ≠ c0.name := by
        intro c hc hsem hname
        have : courseKey c0 ∈ rest.map courseKey := by
          have : courseKey c0 = courseKey c := by
            unfold courseKey
            rw [hsem, hname]
          rw [this]
          exact List.mem_map_of_mem courseKey hc
        exact (List.nodup_cons.mp hndc).1 this
      have hkeys2 : ∀ c ∈ rest, c.required = "지정" →
          (alookup c.semester (addRequired st c0).selectedCourses).isSome = true := by
        intro c hc hcr
        rw [alookup_isSome_iff_mem, addRequired_selected_keys, ← alookup_isSome_iff_mem]
        exact hkeys c (List.mem_cons_of_mem _ hc) hcr
      have hfresh2 : ∀ c ∈ rest, c.required = "지정" →
          hasName (chosenD c.semester (addRequired st c0)) c.name = false := by
        intro c hc hcr
        rw [chosenD_addRequired]
        by_cases hcond : c0.required = "지정" ∧ c.semester = c0.semester
            ∧ (alookup c0.semester st.selectedCourses).isSome = true
            ∧ hasName (chosenD c0.semester st) c0.name = false
        · rw [if_pos hcond, hasName_append]
          have h1 : hasName (chosenD c0.semester st) c.name = false := by
            rw [← hcond.2.1]
            exact hfresh c (List.mem_cons_of_mem _ hc) hcr
          have h2 : hasName [c0] c.name = false := by
            unfold hasName
            simp only [List.any_cons, List.any_nil, Bool.or_false]
            exact decide_eq_false (fun hh => hname_ne c hc hcond.2.1 hh.symm)
          rw [h1, h2]
          rfl
        · rw [if_neg hcond]
          exact hfresh c (List.mem_cons_of_mem _ hc) hcr
      rw [fold_addRequired_chosen rest (addRequired st c0) hkeys2 hfresh2 hnd2 s]
      rw [chosenD_addRequired]
      rw [List.filter_cons]
      by_cases hs : s = c0.semester
      · rw [if_pos ⟨hr, hs, hksome, hfr⟩]
        have hcondT : (requiredB c0 && decide (c0.semester = s)) = true := by
          rw [hrB, Bool.true_and, hs]
          simp
        rw [hcondT]
        simp only [if_true]
        rw [hs, List.append_assoc, List.singleton_append]
      · rw [if_neg (fun hand => hs hand.2.1)]
        have hcondF : (requiredB c0 && decide (c0.semester = s)) = false := by
          have : decide (c0.semester = s) = false := decide_eq_false (fun hh => hs hh.symm)
          rw [this, Bool.and_false]
        rw [hcondF]
        simp only [Bool.false_eq_true, if_false]
    · have hstep : addRequired st c0 = st := by
        unfold addRequired
        rw [if_neg hr]
      rw [hstep, fold_addRequired_chosen rest st
        (fun c hc => hkeys c (List.mem_cons_of_mem _ hc))
        (fun c hc => hfresh c (List.mem_cons_of_mem _ hc)) hnd2 s]
      rw [List.filter_cons]
      have hcondF : (requiredB c0 && decide (c0.semester = s)) = false := by
        have : requiredB c0 = false := decide_eq_false hr
        rw [this, Bool.false_and]
      rw [hcondF]
      simp only [Bool.false_eq_true, if_false]

theorem fold_addRequired_groups :
    ∀ (cds : List Course) (st : SimState),
      (∀ c ∈ cds, c.required = "지정" → ∀ k gi, memB k c = true →
        alookup k st.selectionGroups = some gi → hasName gi.selected c.name = false) →
      (∀ c ∈ cds, ∀ k gi, memB k c = true → alookup k st.selectionGroups = some gi →
        gi.semester = c.semester) →
      (cds.map courseKey).Nodup →
      ∀ k gi, alookup k st.selectionGroups = some gi →
        alookup k ((cds.foldl addRequired st).selectionGroups)
          = some { gi with selected := gi.selected ++ cds.filter (fun c => requiredB c && memB k c) }
  | [], st, _, _, _, k, gi, hgi => by
    rw [List.foldl_nil, List.filter_nil, List.append_nil]
    exact hgi
  | c0 :: rest, st, hsel, hsem, hnd, k, gi, hgi => by
    rw [List.foldl_cons]
    have hndc : (courseKey c0 :: rest.map courseKey).Nodup := by simpa using hnd
    have hnd2 := (List.nodup_cons.mp hndc).2
    have hname_ne : ∀ c ∈ rest, c.semester = c0.semester → c.name ≠ c0.name := by
      intro c hc hsm hname
      have : courseKey c0 ∈ rest.map courseKey := by
        have hkk : courseKey c0 = courseKey c := by
          unfold courseKey
          rw [hsm, hname]
        rw [hkk]
        exact List.mem_map_of_mem courseKey hc
      exact (List.nodup_cons.mp hndc).1 this
    have hsel2 : ∀ c ∈ rest, c.required = "지정" → ∀ k2 gi2, memB k2 c = true →
        alookup k2 (addRequired st c0).selectionGroups = some gi2 →
        hasName gi2.selected c.name = false := by
      intro c hc hcr k2 gi2 hmb2 hgi2
      rw [groups_addRequired_lookup] at hgi2
      by_cases hcond : c0.required = "지정" ∧ memB k2 c0 = true
      · rw [if_pos hcond] at hgi2
        cases halk : alookup k2 st.selectionGroups with
        | none => rw [halk] at hgi2; exact absurd hgi2 (by simp)
        | some gi0 =>
          rw [halk] at hgi2
          have hge := Option.some.inj hgi2
          have hfr0 : hasName gi0.selected c0.name = false :=
            hsel c0 (List.mem_cons_self _ _) hcond.1 k2 gi0 hcond.2 halk
          rw [if_neg (by simp [hfr0])] at hge
          rw [← hge]
          show hasName (gi0.selected ++ [c0]) c.name = false
          rw [hasName_append]
          have h1 : hasName gi0.selected c.name = false :=
            hsel c (List.mem_cons_of_mem _ hc) hcr k2 gi0 hmb2 halk
          have hsm : c.semester = c0.semester := by
            rw [← hsem c (List.mem_cons_of_mem _ hc) k2 gi0 hmb2 halk,
              hsem c0 (List.mem_cons_self _ _) k2 gi0 hcond.2 halk]
          have h2 : hasName [c0] c.name = false := by
            unfold hasName
            simp only [List.any_cons, List.any_nil, Bool.or_false]
            exact decide_eq_false (fun hh => hname_ne c hc hsm hh.symm)
          rw [h1, h2]
          rfl
      · rw [if_neg hcond] at hgi2
        exact hsel c (List.mem_cons_of_mem _ hc) hcr k2 gi2 hmb2 hgi2
    have hsem2 : ∀ c ∈ rest, ∀ k2 gi2, memB k2 c = true →
        alookup k2 (addRequired st c0).selectionGroups = some gi2 →
        gi2.semester = c.semester := by
      intro c hc k2 gi2 hmb2 hgi2
      rw [groups_addRequired_lookup] at hgi2
      by_cases hcond : c0.required = "지정" ∧ memB k2 c0 = true
      · rw [if_pos hcond] at hgi2
        cases halk : alookup k2 st.selectionGroups with
        | none => rw [halk] at hgi2; exact absurd hgi2 (by simp)
        | some gi0 =>
          rw [halk] at hgi2
          have hge := Option.some.inj hgi2
          have hsm0 : gi0.semester = c.semester :=
            hsem c (List.mem_cons_of_mem _ hc) k2 gi0 hmb2 halk
          by_cases hn0 : hasName gi0.selected c0.name = true
          · rw [if_pos hn0] at hge
            rw [← hge]
            exact hsm0
          · rw [if_neg hn0] at hge
            rw [← hge]
            exact hsm0
      · rw [if_neg hcond] at hgi2
        exact hsem c (List.mem_cons_of_mem _ hc) k2 gi2 hmb2 hgi2
    by_cases hcond : c0.required = "지정" ∧ memB k c0 = true
    · have hfr0 : hasName gi.selected c0.name = false :=
        hsel c0 (List.mem_cons_self _ _) hcond.1 k gi hcond.2 hgi
      have hlk : alookup k (addRequired st c0).selectionGroups
          = some { gi with selected := gi.selected ++ [c0] } := by
        rw [groups_addRequired_lookup, if_pos hcond, hgi]
        show some (if hasName gi.selected c0.name = true then gi else _) = _
        rw [if_neg (by simp [hfr0])]
      have hrec := fold_addRequired_groups rest (addRequired st c0) hsel2 hsem2 hnd2 k
        { gi with selected := gi.selected ++ [c0] } hlk
      rw [hrec]
      rw [List.filter_cons]
      have hcT : (requiredB c0 && memB k c0) = true := by
        have h1 : requiredB c0 = true := decide_eq_true hcond.1
        rw [h1, hcond.2]
        rfl
      rw [hcT]
      simp only [if_true]
      show some _ = some _
      rw [Option.some_inj]
      show ({ gi with selected := (gi.selected ++ [c0]) ++ rest.filter _ } : GroupInfo) = _
      rw [List.append_assoc, List.singleton_append]
    · have hlk : alookup k (addRequired st c0).selectionGroups = some gi := by
        rw [groups_addRequired_lookup, if_neg hcond]
        exact hgi
      have hrec := fold_addRequired_groups rest (addRequired st c0) hsel2 hsem2 hnd2 k gi hlk
      rw [hrec]
      rw [List.filter_cons]
      have hcF : (requiredB c0 && memB k c0) = false := by
        by_cases hr : c0.required = "지정"
        · have hm : memB k c0 = false := by
            cases hm2 : memB k c0 with
            | false => rfl
            | true => exact absurd ⟨hr, hm2⟩ hcond
          rw [hm, Bool.and_false]
        · have h1 : requiredB c0 = false := decide_eq_false hr
          rw [h1, Bool.false_and]
      rw [hcF]
      simp only [Bool.false_eq_true, if_false]

theorem chosenD_initBase (cd : List Course) (gl : List (String × LimitInfo)) (s : String) :
    chosenD s (⟨emptyChosen cd, initGroups gl⟩ : SimState) = [] := by
  unfold chosenD emptyChosen
  show (alookup s ((semesterListOf cd).map (fun t => (t, ([] : List Course))))).getD [] = []
  rw [alookup_const_map]
  by_cases h : s ∈ semesterListOf cd
  · rw [if_pos h]
    rfl
  · rw [if_neg h]
    rfl

/-- Characterization of the chosen sets right after initialization: each
semester's chosen array holds exactly the Required catalog courses of that
semester, in catalog order. -/
theorem initState_chosen (cd : List Course) (gl : List (String × LimitInfo))
    (hok : semOkB cd = true) (hnd : (cd.map courseKey).Nodup) (s : String) :
    chosenD s (initState cd gl)
      = cd.filter (fun c => requiredB c && decide (c.semester = s)) := by
  unfold initState
  rw [fold_addRequired_chosen cd ⟨emptyChosen cd, initGroups gl⟩ ?_ ?_ hnd s]
  · rw [chosenD_initBase]
    rfl
  · intro c hc _
    apply alookup_isSome_of_mem_keys
    show c.semester ∈ (emptyChosen cd).map Prod.fst
    unfold emptyChosen
    rw [List.map_map]
    show c.semester ∈ (semesterListOf cd).map (fun t => t)
    rw [List.map_id']
    exact sem_mem_semesterListOf hok hc
  · intro c hc _
    rw [chosenD_initBase]
    rfl

/-- Characterization of the groups right after initialization: each group
of the limit table carries its static data and, as `selected`, exactly the
Required catalog courses that are members of the group — Required courses
do occupy group slots from the start. -/
theorem initState_groups (cd : List Course) (gl : List (String × LimitInfo))
    (hnd : (cd.map courseKey).Nodup) (hw : glWF cd gl = true)
    (k : String) (li : LimitInfo) (hli : alookup k gl = some li) :
    alookup k (initState cd gl).selectionGroups
      = some { semester := li.semester, name := li.group_name, limit := li.limit,
               selected := cd.filter (fun c => requiredB c && memB k c) } := by
  have hbase : alookup k (initGroups gl)
      = some { semester := li.semester, name := li.group_name, limit := li.limit,
               selected := ([] : List Course) } := by
    unfold initGroups
    rw [alookup_map_value (fun li : LimitInfo =>
      ({ semester := li.semester, name := li.group_name, limit := li.limit, selected := [] } : GroupInfo)) k gl, hli]
    rfl
  have hbase_shape : ∀ k2 gi2, alookup k2 (initGroups gl) = some gi2 →
      ∃ li2, alookup k2 gl = some li2 ∧ gi2.semester = li2.semester ∧ gi2.selected = [] := by
    intro k2 gi2 h2
    unfold initGroups at h2
    rw [alookup_map_value (fun li : LimitInfo =>
      ({ semester := li.semester, name := li.group_name, limit := li.limit, selected := [] } : GroupInfo)) k2 gl] at h2
    cases h3 : alookup k2 gl with
    | none => rw [h3] at h2; exact absurd h2 (by simp)
    | some li2 =>
      rw [h3] at h2
      have := Option.some.inj h2
      exact ⟨li2, rfl, by rw [← this], by rw [← this]⟩
  have := fold_addRequired_groups cd ⟨emptyChosen cd, initGroups gl⟩ ?_ ?_ hnd k
    { semester := li.semester, name := li.group_name, limit := li.limit, selected := [] }
    hbase
  · unfold initState
    rw [this]
    rfl
  · intro c _ _ k2 gi2 _ h2
    obtain ⟨li2, _, _, hsel2⟩ := hbase_shape k2 gi2 h2
    rw [hsel2]
    rfl
  · intro c hc k2 gi2 hmb2 h2
    obtain ⟨li2, hli2, hsem2, _⟩ := hbase_shape k2 gi2 h2
    rw [hsem2]
    have hkey : ∃ g, c.selection_group = some g ∧ sgKey c.semester g = k2 := by
      unfold memB at hmb2
      cases hg : c.selection_group with
      | none => rw [hg] at hmb2; simp at hmb2
      | some g =>
        rw [hg] at hmb2
        exact ⟨g, rfl, by simpa using hmb2⟩
    obtain ⟨g, hg, hkeq⟩ := hkey
    have hli3 : alookup (sgKey c.semester g) gl = some li2 := by rw [hkeq]; exact hli2
    exact glWF_spec hw hc hg hli3

theorem filter_filter_fuse {α : Type} (p q : α → Bool) (l : List α) :
    (l.filter p).filter q = l.filter (fun a => p a && q a) := by
  induction l with
  | nil => rfl
  | cons x rest ih =>
    by_cases hp : p x = true <;> by_cases hq : q x = true <;>
      simp [List.filter_cons, hp, hq, ih]

theorem filter_congr_mem {α : Type} {p q : α → Bool} :
    ∀ {l : List α}, (∀ a ∈ l, p a = q a) → l.filter p = l.filter q
  | [], _ => rfl
  | x :: rest, h => by
    have hx := h x (List.mem_cons_self _ _)
    have ih := filter_congr_mem (fun a ha => h a (List.mem_cons_of_mem _ ha))
    by_cases hp : p x = true
    · rw [List.filter_cons, List.filter_cons, if_pos hp, if_pos (hx ▸ hp), ih]
    · have hpf : p x = false := by
        cases h2 : p x with
        | false => rfl
        | true => exact absurd h2 hp
      rw [List.filter_cons, List.filter_cons, if_neg hp, if_neg (by rw [← hx]; exact hp), ih]

theorem names_nodup_of_same_semester {s : String} :
    ∀ {l : List Course}, (∀ c ∈ l, c.semester = s) → (l.map courseKey).Nodup →
      (l.map Course.name).Nodup
  | [], _, _ => List.nodup_nil
  | c :: rest, hsem, hnd => by
    simp only [List.map_cons, List.nodup_cons] at hnd ⊢
    refine ⟨?_, names_nodup_of_same_semester
      (fun e he => hsem e (List.mem_cons_of_mem _ he)) hnd.2⟩
    intro hmem
    rcases List.mem_map.mp hmem with ⟨e, he, hename⟩
    apply hnd.1
    have hkk : courseKey e = courseKey c := by
      unfold courseKey
      rw [hsem e (List.mem_cons_of_mem _ he), hsem c (List.mem_cons_self _ _), hename]
    rw [← hkk]
    exact List.mem_map_of_mem courseKey he

/-- After initialization the engine invariant holds. -/
theorem initState_inv (cd : List Course) (gl : List (String × LimitInfo))
    (hok : semOkB cd = true) (hnd : (cd.map courseKey).Nodup) (hw : glWF cd gl = true) :
    EngineInv cd gl (initState cd gl) := by
  have hkeys : (initState cd gl).selectedCourses.map Prod.fst = semesterListOf cd := by
    unfold initState
    rw [fold_selected_keys]
    show (emptyChosen cd).map Prod.fst = _
    unfold emptyChosen
    rw [List.map_map]
    show (semesterListOf cd).map (fun t => t) = _
    rw [List.map_id']
  have hgl_of_lookup : ∀ k gi, alookup k (initState cd gl).selectionGroups = some gi →
      ∃ li, alookup k gl = some li := by
    intro k gi hgi
    have hk : k ∈ gl.map Prod.fst := by
      have h1 : (alookup k (initState cd gl).selectionGroups).isSome = true := by
        rw [hgi]; rfl
      rw [alookup_isSome_iff_mem] at h1
      unfold initState at h1
      rw [fold_group_keys] at h1
      show k ∈ _
      have h2 : (initGroups gl).map Prod.fst = gl.map Prod.fst := by
        unfold initGroups
        rw [List.map_map]
        rfl
      rw [← h2]
      exact h1
    have := alookup_isSome_of_mem_keys hk
    cases h3 : alookup k gl with
    | none => rw [h3] at this; exact absurd this (by simp)
    | some li => exact ⟨li, rfl⟩
  constructor
  · exact hkeys
  · intro s c hc
    rw [initState_chosen cd gl hok hnd s] at hc
    have h2 := List.mem_filter.mp hc
    refine ⟨h2.1, ?_⟩
    have := h2.2
    simp only [Bool.and_eq_true, decide_eq_true_eq] at this
    exact this.2
  · intro s
    rw [initState_chosen cd gl hok hnd s]
    apply names_nodup_of_same_semester (s := s)
    · intro c hc
      have h2 := (List.mem_filter.mp hc).2
      simp only [Bool.and_eq_true, decide_eq_true_eq] at h2
      exact h2.2
    · exact hnd.sublist (List.Sublist.map courseKey (List.filter_sublist cd))
  · intro k gi hgi
    obtain ⟨li, hli⟩ := hgl_of_lookup k gi hgi
    rw [initState_groups cd gl hnd hw k li hli] at hgi
    have he := Option.some.inj hgi
    exact ⟨li, hli, by rw [← he], by rw [← he], by rw [← he]⟩
  · intro k gi hgi
    obtain ⟨li, hli⟩ := hgl_of_lookup k gi hgi
    rw [initState_groups cd gl hnd hw k li hli] at hgi
    have he := Option.some.inj hgi
    rw [← he]
    show cd.filter (fun c => requiredB c && memB k c)
      = List.filter (memB k) (chosenD li.semester (initState cd gl))
    rw [initState_chosen cd gl hok hnd li.semester, filter_filter_fuse]
    apply filter_congr_mem
    intro c hc
    by_cases hmb : memB k c = true
    · have hkey : ∃ g, c.selection_group = some g ∧ sgKey c.semester g = k := by
        unfold memB at hmb
        cases hg : c.selection_group with
        | none => rw [hg] at hmb; simp at hmb
        | some g =>
          rw [hg] at hmb
          exact ⟨g, rfl, by simpa using hmb⟩
      obtain ⟨g, hg, hkeq⟩ := hkey
      have hli2 : alookup (sgKey c.semester g) gl = some li := by rw [hkeq]; exact hli
      have hsemc : li.semester = c.semester := glWF_spec hw hc hg hli2
      have hdec : decide (c.semester = li.semester) = true := by
        rw [hsemc]
        simp
      rw [hmb, hdec, Bool.and_true, Bool.and_true]
    · have hmbf : memB k c = false := by
        cases h2 : memB k c with
        | false => rfl
        | true => exact absurd h2 hmb
      rw [hmbf, Bool.and_false, Bool.and_false]

/-- After initialization every group's `selected` consists of Required
courses only, so the elective-quota property holds vacuously. -/
theorem initState_electiveQuota (cd : List Course) (gl : List (String × LimitInfo))
    (hnd : (cd.map courseKey).Nodup) (hw : glWF cd gl = true) :
    ElectiveQuota (initState cd gl) := by
  intro k gi hgi hex
  exfalso
  have hgl_of_lookup : ∃ li, alookup k gl = some li := by
    have hk : k ∈ gl.map Prod.fst := by
      have h1 : (alookup k (initState cd gl).selectionGroups).isSome = true := by
        rw [hgi]; rfl
      rw [alookup_isSome_iff_mem] at h1
      unfold initState at h1
      rw [fold_group_keys] at h1
      have h2 : (initGroups gl).map Prod.fst = gl.map Prod.fst := by
        unfold initGroups
        rw [List.map_map]
        rfl
      rw [← h2]
      exact h1
    have := alookup_isSome_of_mem_keys hk
    cases h3 : alookup k gl with
    | none => rw [h3] at this; exact absurd this (by simp)
    | some li => exact ⟨li, rfl⟩
  obtain ⟨li, hli⟩ := hgl_of_lookup
  rw [initState_groups cd gl hnd hw k li hli] at hgi
  have he := Option.some.inj hgi
  obtain ⟨e, hemem, hereq⟩ := hex
  rw [← he] at hemem
  have h2 := (List.mem_filter.mp hemem).2
  simp only [Bool.and_eq_true] at h2
  exact hereq (of_decide_eq_true h2.1)

/-! ### More helper lemmas -/

theorem aset_aset {β : Type} (key : String) (v w : β) :
    ∀ l : List (String × β), aset key v (aset key w l) = aset key v l
  | [] => rfl
  | (k, u) :: rest => by
    by_cases hk : k = key
    · simp [aset_cons, hk]
    · simp [aset_cons, hk, aset_aset key v w rest]

theorem filter_name_eq_self {l : List Course} {nm : String}
    (h : ∀ e ∈ l, ¬ e.name = nm) :
    l.filter (fun e => !(decide (e.name = nm))) = l := by
  induction l with
  | nil => rfl
  | cons x rest ih =>
    have hx : (!(decide (x.name = nm))) = true := by
      simp [h x (List.mem_cons_self _ _)]
    rw [List.filter_cons, if_pos hx, ih (fun e he => h e (List.mem_cons_of_mem _ he))]

theorem perm_filter_name_append {nm : String} :
    ∀ {l : List Course} {c : Course}, c ∈ l → c.name = nm →
      (l.map Course.name).Nodup →
      (l.filter (fun e => !(decide (e.name = nm))) ++ [c]).Perm l := by
  intro l
  induction l with
  | nil => intro c hc; simp at hc
  | cons x rest ih =>
    intro c hc hcnm hnd
    simp only [List.map_cons, List.nodup_cons] at hnd
    rcases List.mem_cons.mp hc with rfl | hc2
    · have hrest : ∀ e ∈ rest, ¬ e.name = nm := by
        intro e he hename
        apply hnd.1
        rw [hcnm, ← hename]
        exact List.mem_map_of_mem Course.name he
      have hx : (!(decide (c.name = nm))) = false := by simp [hcnm]
      rw [List.filter_cons, if_neg (by simp [hcnm]), filter_name_eq_self hrest]
      exact List.perm_append_singleton _ _
    · have hxname : ¬ x.name = nm := by
        intro hxn
        apply hnd.1
        rw [hxn, ← hcnm]
        exact List.mem_map_of_mem Course.name hc2
      rw [List.filter_cons, if_pos (by simp [hxname])]
      show (x :: (rest.filter _ ++ [c])).Perm (x :: rest)
      exact (ih hc2 hcnm hnd.2).cons x

theorem map_congr_mem {α β : Type} {f g : α → β} :
    ∀ {l : List α}, (∀ a ∈ l, f a = g a) → l.map f = l.map g
  | [], _ => rfl
  | x :: rest, h => by
    rw [List.map_cons, List.map_cons, h x (List.mem_cons_self _ _),
      map_congr_mem (fun a ha => h a (List.mem_cons_of_mem _ ha))]

theorem toggle_selected_keys (cd : List Course) (st : SimState)
    (sem nm : String) (chk : Bool) :
    (toggleCourse cd st sem nm chk).1.selectedCourses.map Prod.fst
      = st.selectedCourses.map Prod.fst := by
  cases hfind : findCourse cd sem nm with
  | none => rw [toggle_unknown_silent_noop cd st sem nm chk hfind]
  | some course =>
    by_cases hsel : hasName (chosenD sem st) nm = true
    · cases chk with
      | true => rw [toggle_noop cd st sem nm true course hfind hsel]
      | false =>
        cases hg : course.selection_group with
        | none =>
          rw [toggle_deselect_nogroup cd st sem nm course hfind hsel hg]
          exact aset_keys _ _ _
        | some g =>
          cases hgi : alookup (sgKey sem g) st.selectionGroups with
          | none =>
            rw [toggle_deselect_unresolved cd st sem nm course g hfind hsel hg hgi]
            exact aset_keys _ _ _
          | some gi =>
            rw [toggle_deselect_resolved cd st sem nm course g gi hfind hsel hg hgi]
            exact aset_keys _ _ _
    · have hselF : hasName (chosenD sem st) nm = false := by
        cases h2 : hasName (chosenD sem st) nm with
        | false => rfl
        | true => exact absurd h2 hsel
      cases chk with
      | false => rw [toggle_noop cd st sem nm false course hfind hselF]
      | true =>
        cases hg : course.selection_group with
        | none =>
          rw [toggle_select_nogroup cd st sem nm course hfind hselF hg]
          exact aset_keys _ _ _
        | some g =>
          cases hgi : alookup (sgKey sem g) st.selectionGroups with
          | none =>
            rw [toggle_select_unresolved cd st sem nm course g hfind hselF hg hgi]
            exact aset_keys _ _ _
          | some gi =>
            by_cases hfull : gi.limit ≤ gi.selected.length
            · rw [toggle_select_resolved_full cd st sem nm course g gi hfind hselF hg hgi hfull]
            · rw [toggle_select_resolved_notfull cd st sem nm course g gi hfind hselF hg hgi
                (Nat.lt_of_not_le hfull)]
              exact aset_keys _ _ _

theorem runOps_selected_keys (cd : List Course) :
    ∀ (ops : List (String × String × Bool)) (st : SimState),
      (runOps cd st ops).selectedCourses.map Prod.fst = st.selectedCourses.map Prod.fst
  | [], _ => rfl
  | (sem, nm, chk) :: rest, st => by
    rw [runOps, runOps_selected_keys cd rest _, toggle_selected_keys]

theorem initState_keys (cd : List Course) (gl : List (String × LimitInfo)) :
    (initState cd gl).selectedCourses.map Prod.fst = semesterListOf cd := by
  unfold initState
  rw [fold_selected_keys]
  show (emptyChosen cd).map Prod.fst = _
  unfold emptyChosen
  rw [List.map_map]
  show (semesterListOf cd).map (fun t => t) = _
  rw [List.map_id']

/-! ### Extracting `totalCredits` from the summary fold -/

/-- Total credits stored in the state itself: the sum of credits over
every semester's chosen list. -/
def stateTotal (st : SimState) : Int :=
  (st.selectedCourses.map (fun p => ((p.2.map Course.credits).sum))).sum

theorem summary_inner_fold_fst :
    ∀ (cs : List Course) (a : Int) (b : List (String × Int)),
      ((cs.foldl (fun (acc2 : Int × List (String × Int)) c =>
        (acc2.1 + c.credits,
          bump (if c.group = "" then "기타" else c.group) c.credits acc2.2)) (a, b)).1)
        = a + (cs.map Course.credits).sum
  | [], a, b => by simp
  | c :: rest, a, b => by
    rw [List.foldl_cons, summary_inner_fold_fst rest _ _, List.map_cons, List.sum_cons]
    omega

theorem summary_outer_fold_fst (st : SimState) :
    ∀ (sems : List String) (a : Int) (b : List (String × Int)),
      ((sems.foldl (fun acc s => (chosenD s st).foldl
          (fun (acc2 : Int × List (String × Int)) c =>
            (acc2.1 + c.credits,
              bump (if c.group = "" then "기타" else c.group) c.credits acc2.2)) acc) (a, b)).1)
        = a + (sems.map (fun s => ((chosenD s st).map Course.credits).sum)).sum
  | [], a, b => by simp
  | s0 :: rest, a, b => by
    rw [List.foldl_cons]
    have hpair : ((chosenD s0 st).foldl
        (fun (acc2 : Int × List (String × Int)) c =>
          (acc2.1 + c.credits,
            bump (if c.group = "" then "기타" else c.group) c.credits acc2.2)) (a, b))
        = (a + ((chosenD s0 st).map Course.credits).sum,
            ((chosenD s0 st).foldl
              (fun (acc2 : Int × List (String × Int)) c =>
                (acc2.1 + c.credits,
                  bump (if c.group = "" then "기타" else c.group) c.credits acc2.2)) (a, b)).2) := by
      rw [← summary_inner_fold_fst (chosenD s0 st) a b]
    rw [hpair, summary_outer_fold_fst st rest _ _, List.map_cons, List.sum_cons]
    omega

theorem sum_over_assoc_keys :
    ∀ sc : List (String × List Course), (sc.map Prod.fst).Nodup →
      ((sc.map Prod.fst).map
        (fun s => (((alookup s sc).getD []).map Course.credits).sum)).sum
        = (sc.map (fun p => ((p.2.map Course.credits).sum))).sum
  | [], _ => rfl
  | (k, lst) :: rest, hnd => by
    simp only [List.map_cons, List.nodup_cons] at hnd
    simp only [List.map_cons, List.sum_cons]
    have hhead : (((alookup k ((k, lst) :: rest)).getD []).map Course.credits).sum
        = (lst.map Course.credits).sum := by
      rw [alookup_cons, if_pos rfl]
      rfl
    rw [hhead]
    have htail : (rest.map Prod.fst).map
        (fun s => (((alookup s ((k, lst) :: rest)).getD []).map Course.credits).sum)
        = (rest.map Prod.fst).map
          (fun s => (((alookup s rest).getD []).map Course.credits).sum) := by
      apply map_congr_mem
      intro s hs
      have hks : ¬ k = s := by
        intro hk
        exact hnd.1 (hk ▸ hs)
      rw [alookup_cons, if_neg hks]
    rw [htail, sum_over_assoc_keys rest hnd.2]

theorem summary_total_of_keys (cd : List Course) (st : SimState)
    (hkeys : st.selectedCourses.map Prod.fst = semesterListOf cd) :
    (updateSummary cd st).totalCredits = stateTotal st := by
  show ((semesterListOf cd).foldl _ ((0 : Int), ([] : List (String × Int)))).1 = _
  rw [summary_outer_fold_fst st (semesterListOf cd) 0 []]
  rw [← hkeys]
  show (0 : Int) + ((st.selectedCourses.map Prod.fst).map
    (fun s => (((alookup s st.selectedCourses).getD []).map Course.credits).sum)).sum = _
  rw [sum_over_assoc_keys st.selectedCourses (by rw [hkeys]; exact semesterListOf_nodup cd)]
  unfold stateTotal
  omega

/-! ### C6: the summary total -/

/-- C6.  In every state the engine can reach (initialization followed by
any sequence of toggle calls), the summary's `totalCredits` equals the sum
of the `credits` field over all chosen courses of all semesters, each
course's credits taken as given; and the summary is a pure function of the
state, so recomputing it without an intervening toggle yields the very
same output. -/
theorem summary_total_correct (cd : List Course) (gl : List (String × LimitInfo))
    (ops : List (String × String × Bool)) :
    (updateSummary cd (runOps cd (initState cd gl) ops)).totalCredits
      = stateTotal (runOps cd (initState cd gl) ops) ∧
    updateSummary cd (runOps cd (initState cd gl) ops)
      = updateSummary cd (runOps cd (initState cd gl) ops) := by
  refine ⟨?_, rfl⟩
  apply summary_total_of_keys
  rw [runOps_selected_keys, initState_keys]

/-! ### C2: Required courses stay chosen -/

/-- Whether a toggle operation targets an Elective (or unknown) course —
exactly the toggles the rendering layer can emit, since
`createCourseCard` renders a checkbox (with the `toggleCourse` handler)
only when `isRequired` is false. -/
def electiveTargeted (cd : List Course) (op : String × String × Bool) : Bool :=
  match findCourse cd op.1 op.2.1 with
  | some c => !(decide (c.required = "지정"))
  | none => true

theorem chosenD_after_aset (sem : String) (v : List Course)
    (sc : List (String × List Course)) (sgs : List (String × GroupInfo)) (s : String) :
    chosenD s ⟨aset sem v sc, sgs⟩
      = if s = sem ∧ (alookup sem sc).isSome = true then v else (alookup s sc).getD [] := by
  by_cases hs : s = sem
  · subst hs
    show (alookup s (aset s v sc)).getD [] = _
    rw [alookup_aset_self]
    cases halt : alookup s sc with
    | none =>
      rw [if_neg (by simp)]
      rfl
    | some lst =>
      rw [if_pos ⟨rfl, by simp⟩]
      rfl
  · show (alookup s (aset sem v sc)).getD [] = _
    rw [alookup_aset_ne hs, if_neg (fun hand => hs hand.1)]

theorem required_stays_one_step {cd : List Course} {gl : List (String × LimitInfo)}
    {st : SimState} (hnd : (cd.map courseKey).Nodup) (hinv : EngineInv cd gl st)
    {r : Course} (hreq : r.required = "지정") (hr : r ∈ chosenD r.semester st)
    (sem nm : String) (chk : Bool)
    (hop : electiveTargeted cd (sem, nm, chk) = true) :
    r ∈ chosenD r.semester (toggleCourse cd st sem nm chk).1 := by
  cases hfind : findCourse cd sem nm with
  | none =>
    rw [toggle_unknown_silent_noop cd st sem nm chk hfind]
    exact hr
  | some course =>
    obtain ⟨hcd, hcsem, hcname⟩ := findCourse_props hfind
    have helect : ¬ course.required = "지정" := by
      unfold electiveTargeted at hop
      rw [hfind] at hop
      simpa using hop
    have hmem_append : ∀ sgs2,
        r ∈ chosenD r.semester ⟨aset sem (chosenD sem st ++ [course]) st.selectedCourses, sgs2⟩ := by
      intro sgs2
      rw [chosenD_after_aset]
      by_cases hcond : r.semester = sem ∧ (alookup sem st.selectedCourses).isSome = true
      · rw [if_pos hcond]
        apply List.mem_append_left
        rw [← hcond.1]
        exact hr
      · rw [if_neg hcond]
        exact hr
    have hmem_filter : ∀ sgs2,
        r ∈ chosenD r.semester ⟨aset sem
          ((chosenD sem st).filter (fun c => !(decide (c.name = nm)))) st.selectedCourses, sgs2⟩ := by
      intro sgs2
      rw [chosenD_after_aset]
      by_cases hcond : r.semester = sem ∧ (alookup sem st.selectedCourses).isSome = true
      · rw [if_pos hcond]
        apply List.mem_filter.mpr
        refine ⟨by rw [← hcond.1]; exact hr, ?_⟩
        have hrname : ¬ r.name = nm := by
          intro hname
          obtain ⟨hrcd, hrsem⟩ := hinv.chosenMem r.semester r hr
          have : r = course := by
            apply eq_of_keys_nodup hnd hrcd hcd
            unfold courseKey
            rw [hrsem, hcond.1, hcsem, hname, hcname]
          rw [this] at hreq
          exact helect hreq
        simp [hrname]
      · rw [if_neg hcond]
        exact hr
    by_cases hsel : hasName (chosenD sem st) nm = true
    · cases chk with
      | true =>
        rw [toggle_noop cd st sem nm true course hfind hsel]
        exact hr
      | false =>
        cases hg : course.selection_group with
        | none =>
          rw [toggle_deselect_nogroup cd st sem nm course hfind hsel hg]
          exact hmem_filter _
        | some g =>
          cases hgi : alookup (sgKey sem g) st.selectionGroups with
          | none =>
            rw [toggle_deselect_unresolved cd st sem nm course g hfind hsel hg hgi]
            exact hmem_filter _
          | some gi =>
            rw [toggle_deselect_resolved cd st sem nm course g gi hfind hsel hg hgi]
            exact hmem_filter _
    · have hselF : hasName (chosenD sem st) nm = false := by
        cases h2 : hasName (chosenD sem st) nm with
        | false => rfl
        | true => exact absurd h2 hsel
      cases chk with
      | false =>
        rw [toggle_noop cd st sem nm false course hfind hselF]
        exact hr
      | true =>
        cases hg : course.selection_group with
        | none =>
          rw [toggle_select_nogroup cd st sem nm course hfind hselF hg]
          exact hmem_append _
        | some g =>
          cases hgi : alookup (sgKey sem g) st.selectionGroups with
          | none =>
            rw [toggle_select_unresolved cd st sem nm course g hfind hselF hg hgi]
            exact hmem_append _
          | some gi =>
            by_cases hfull : gi.limit ≤ gi.selected.length
            · rw [toggle_select_resolved_full cd st sem nm course g gi hfind hselF hg hgi hfull]
              exact hr
            · rw [toggle_select_resolved_notfull cd st sem nm course g gi hfind hselF hg hgi
                (Nat.lt_of_not_le hfull)]
              exact hmem_append _

/-- C2 (amended).  A Required course placed into its semester's chosen
set at initialization stays chosen after any sequence of operations the
rendering layer can emit: the read-only queries do not mutate state, and
every toggle the UI can produce targets an Elective (or unknown) course,
because `createCourseCard` renders no checkbox — hence no `toggleCourse`
handler — for Required cards.  The protection is only in the rendering
layer: `toggleCourse` itself never inspects `required`, and a direct
toggle call on a Required course does remove it from `chosen`, as
the counterexample below shows.  So the original "no sequence of calls
to toggle" reading is false; the guarantee holds exactly for
Elective-targeted call sequences. -/
theorem required_immutable (cd : List Course) (gl : List (String × LimitInfo))
    (hok : semOkB cd = true) (hnd : (cd.map courseKey).Nodup) (hw : glWF cd gl = true)
    (ops : List (String × String × Bool))
    (hops : ∀ op ∈ ops, electiveTargeted cd op = true)
    (r : Course) (hreq : r.required = "지정")
    (hmem : r ∈ chosenD r.semester (initState cd gl)) :
    r ∈ chosenD r.semester (runOps cd (initState cd gl) ops) := by
  have main : ∀ (ops2 : List (String × String × Bool)) (st : SimState),
      EngineInv cd gl st → (∀ op ∈ ops2, electiveTargeted cd op = true) →
      r ∈ chosenD r.semester st → r ∈ chosenD r.semester (runOps cd st ops2) := by
    intro ops2
    induction ops2 with
    | nil =>
      intro st _ _ h
      exact h
    | cons op rest ih =>
      intro st hinv hops2 h
      obtain ⟨sem, nm, chk⟩ := op
      exact ih _ (toggle_preserves_inv hok hnd hw hinv sem nm chk)
        (fun o ho => hops2 o (List.mem_cons_of_mem _ ho))
        (required_stays_one_step hnd hinv hreq h sem nm chk
          (hops2 _ (List.mem_cons_self _ _)))
  exact main ops (initState cd gl) (initState_inv cd gl hok hnd hw) hops hmem

/-- Witness for C2: in `cdB`, the Required course `r` is chosen after
initialization and stays chosen after electives are toggled. -/
theorem required_immutable_witness :
    exCourse "1" "r" 3 "지정" (some "G") (some 1)
      ∈ chosenD "1" (runOps cdB (initState cdB glB) [("1", "e", true), ("1", "e", false)]) := by
  have := required_immutable cdB glB (by decide) (by decide) (by decide)
    [("1", "e", true), ("1", "e", false)]
    (by intro op hop; fin_cases hop <;> decide)
    (exCourse "1" "r" 3 "지정" (some "G") (some 1)) (by decide) (by decide)
  exact this

/-- C2 counterexample.  `toggleCourse` itself does not protect Required
courses: in `cdB` the Required course `r` is in semester `1`'s chosen set
right after initialization, and the single public toggle call
`toggleCourse` on `("1", "r", false)` — a call the claim's "no sequence of
calls to toggle" quantifies over — removes it from `chosen`. -/
theorem required_removed_by_toggle_counterexample :
    hasName (chosenD "1" (initState cdB glB)) "r" = true ∧
    hasName (chosenD "1" (runOps cdB (initState cdB glB) [("1", "r", false)])) "r" = false := by
  decide

/-! ### C3: the selected-view invariant and the quota bound -/

theorem alookup_mem {β : Type} {key : String} {v : β} :
    ∀ {l : List (String × β)}, alookup key l = some v → (key, v) ∈ l
  | [], h => by simp at h
  | (k, w) :: rest, h => by
    by_cases hk : k = key
    · subst hk
      rw [alookup_cons, if_pos rfl] at h
      have hv : w = v := Option.some.inj h
      rw [← hv]
      exact List.mem_cons_self _ _
    · rw [alookup_cons, if_neg hk] at h
      exact List.mem_cons_of_mem _ (alookup_mem h)

/-- Decidable check that every group is within its limit. -/
def quotaOkB (st : SimState) : Bool :=
  st.selectionGroups.all (fun p => decide (p.2.selected.length ≤ p.2.limit))

theorem quotaOkB_spec {st : SimState} (h : quotaOkB st = true) : QuotaOk st := by
  intro k gi hgi
  have hmemb := alookup_mem hgi
  unfold quotaOkB at h
  rw [List.all_eq_true] at h
  have h2 := h (k, gi) hmemb
  simpa using h2

/-- Catalog with two Required members of the pick-1 group `G`: the group
is over its limit right after initialization. -/
def cdC : List Course :=
  [exCourse "1" "r1" 1 "지정" (some "G") (some 1),
   exCourse "1" "r2" 1 "지정" (some "G") (some 1)]

/-- C3 counterexample.  `initializeSelectionGroups` pushes every Required
member into its group's `selected` with no quota check, so with two
Required members and limit 1 the group's `selected` has length 2 > 1
right after initialization — the claimed bound `|selected| ≤ limit` fails. -/
theorem group_over_limit_at_init_counterexample :
    (alookup "1_G" (initState cdC glB).selectionGroups).map
      (fun gi => (gi.selected.length, gi.limit)) = some (2, 1) ∧ ¬ (2 ≤ 1) := by
  decide

/-- C3 (amended).  After initialization and after every toggle, every
group's `selected` sequence equals exactly the chosen courses of the
group's semester that are members of the group (the `chosen ∩ members`
view); and its length never exceeds the limit **provided** the groups are
within their limits at initialization (that is, no group holds more
Required members than its limit — otherwise such a group exceeds the
limit from initialization onward, as the counterexample shows). -/
theorem selected_view_and_quota (cd : List Course) (gl : List (String × LimitInfo))
    (hok : semOkB cd = true) (hnd : (cd.map courseKey).Nodup) (hw : glWF cd gl = true)
    (hq : quotaOkB (initState cd gl) = true)
    (ops : List (String × String × Bool)) (k : String) (gi : GroupInfo)
    (hgi : alookup k (runOps cd (initState cd gl) ops).selectionGroups = some gi) :
    gi.selected = (chosenD gi.semester (runOps cd (initState cd gl) ops)).filter (memB k) ∧
    gi.selected.length ≤ gi.limit := by
  have hinv := runOps_preserves_inv hok hnd hw ops (initState_inv cd gl hok hnd hw)
  have hquota := @runOps_preserves_quotaOk cd ops (initState cd gl) (quotaOkB_spec hq)
  exact ⟨hinv.sgSel k gi hgi, hquota k gi hgi⟩

/-- Witness for the amended C3 on `cdB` after a rejected toggle. -/
theorem selected_view_and_quota_witness :
    (⟨"1", "G", 1, [exCourse "1" "r" 3 "지정" (some "G") (some 1)]⟩ : GroupInfo).selected
      = (chosenD "1" (runOps cdB (initState cdB glB) [("1", "e", true)])).filter (memB "1_G") ∧
    (⟨"1", "G", 1, [exCourse "1" "r" 3 "지정" (some "G") (some 1)]⟩ : GroupInfo).selected.length
      ≤ (⟨"1", "G", 1, [exCourse "1" "r" 3 "지정" (some "G") (some 1)]⟩ : GroupInfo).limit :=
  selected_view_and_quota cdB glB (by decide) (by decide) (by decide) (by decide)
    [("1", "e", true)] "1_G"
    ⟨"1", "G", 1, [exCourse "1" "r" 3 "지정" (some "G") (some 1)]⟩ (by decide)

/-! ### C4: Required members count against the quota -/

/-- C4 counterexample.  In `cdB` the group `G` has limit 1 and one
Required member; at initialization zero Elective members are selected,
yet selecting the Elective member `e` is rejected — Required courses do
count against the quota validation, contrary to the claim. -/
theorem required_blocks_elective_counterexample :
    (toggleCourse cdB (initState cdB glB) "1" "e" true).2 = ToggleOutcome.quotaAlert "G" 1 ∧
    ((chosenD "1" (initState cdB glB)).filter
      (fun c => memB "1_G" c && !(requiredB c))).length = 0 := by
  decide

/-- C4 (amended).  Required members of a resolved group are inserted into
the group's `selected` at initialization and count toward the quota
check: right after initialization, selecting an Elective member of the
group succeeds iff the number of Required members of the group (which is
the group's entire `selected` at that point) is strictly below the
limit. -/
theorem required_counts_against_quota (cd : List Course) (gl : List (String × LimitInfo))
    (hok : semOkB cd = true) (hnd : (cd.map courseKey).Nodup) (hw : glWF cd gl = true)
    (semester courseName : String) (course : Course) (g : String) (li : LimitInfo)
    (hfind : findCourse cd semester courseName = some course)
    (helect : ¬ course.required = "지정")
    (hg : course.selection_group = some g)
    (hli : alookup (sgKey semester g) gl = some li) :
    (toggleCourse cd (initState cd gl) semester courseName true).2 = ToggleOutcome.ok
      ↔ (cd.filter (fun c => requiredB c && memB (sgKey semester g) c)).length < li.limit := by
  obtain ⟨hcd, hcsem, hcname⟩ := findCourse_props hfind
  have hgi := initState_groups cd gl hnd hw (sgKey semester g) li hli
  have hnot : hasName (chosenD semester (initState cd gl)) courseName = false := by
    rw [initState_chosen cd gl hok hnd semester]
    apply hasName_eq_false.mpr
    intro e he hename
    have h2 := List.mem_filter.mp he
    have h3 := h2.2
    simp only [requiredB, Bool.and_eq_true, decide_eq_true_eq] at h3
    have hec : e = course := by
      apply eq_of_keys_nodup hnd h2.1 hcd
      unfold courseKey
      rw [h3.2, hename, hcsem, hcname]
    rw [hec] at h3
    exact helect h3.1
  by_cases hfull : li.limit ≤ (cd.filter (fun c => requiredB c && memB (sgKey semester g) c)).length
  · rw [toggle_select_resolved_full cd (initState cd gl) semester courseName course g _
      hfind hnot hg hgi hfull]
    constructor
    · intro h
      exact absurd h (by simp)
    · intro h
      exact absurd h (Nat.not_lt.mpr hfull)
  · rw [toggle_select_resolved_notfull cd (initState cd gl) semester courseName course g _
      hfind hnot hg hgi (Nat.lt_of_not_le hfull)]
    constructor
    · intro _
      exact Nat.lt_of_not_le hfull
    · intro _
      rfl

/-- Catalog like `cdB` but with limit 2: the single Required member no
longer fills the group. -/
def cdD : List Course :=
  [exCourse "1" "r" 3 "지정" (some "G") (some 2), exCourse "1" "e" 2 "" (some "G") (some 2)]

/-- Limit table for `cdD`. -/
def glD : List (String × LimitInfo) := [("1_G", exLimit "1" "G" 2)]

/-- Witness for the amended C4: with limit 2 and one Required member,
selecting the Elective member right after initialization succeeds. -/
theorem required_counts_against_quota_witness :
    (toggleCourse cdD (initState cdD glD) "1" "e" true).2 = ToggleOutcome.ok :=
  (required_counts_against_quota cdD glD (by decide) (by decide) (by decide)
    "1" "e" (exCourse "1" "e" 2 "" (some "G") (some 2)) "G" (exLimit "1" "G" 2)
    (by decide) (by decide) (by decide) (by decide)).mpr (by decide)

/-! ### C7: toggling an Elective twice restores the observables -/

theorem length_filter_lt_of_mem {α : Type} {l : List α} {p : α → Bool} {c : α}
    (hc : c ∈ l) (hpc : p c = false) : (l.filter p).length < l.length := by
  induction l with
  | nil => cases hc
  | cons x rest ih =>
    rw [List.filter_cons]
    rcases List.mem_cons.mp hc with rfl | hc2
    · rw [hpc]
      simp only [Bool.false_eq_true, if_false, List.length_cons]
      exact Nat.lt_succ_of_le (List.length_filter_le p rest)
    · have hlt := ih hc2
      cases hpx : p x
      · simp only [Bool.false_eq_true, if_false, List.length_cons]
        omega
      · simp only [if_true, List.length_cons]
        omega

theorem stateTotal_congr {st st2 : SimState}
    (hkeys : st2.selectedCourses.map Prod.fst = st.selectedCourses.map Prod.fst)
    (hnd : (st.selectedCourses.map Prod.fst).Nodup)
    (hperm : ∀ s, (chosenD s st2).Perm (chosenD s st)) :
    stateTotal st2 = stateTotal st := by
  unfold stateTotal
  rw [← sum_over_assoc_keys st2.selectedCourses (by rw [hkeys]; exact hnd),
      ← sum_over_assoc_keys st.selectedCourses hnd, hkeys]
  apply congrArg
  apply map_congr_mem
  intro s _
  exact (((hperm s).map Course.credits).sum_eq)

/-- C7.  Toggling an Elective course twice in succession — where each call
receives the checkbox state the UI would pass, i.e. the negation of
whether the course is currently chosen — restores every observable of the
state reached before the first call: the chosen collection of every
semester (up to order), the summary total credits, and every group's
(selected count, limit) pair.  The first toggle is assumed to succeed. -/
theorem toggle_twice_reversible (cd : List Course) (gl : List (String × LimitInfo))
    (hok : semOkB cd = true) (hnd : (cd.map courseKey).Nodup) (hw : glWF cd gl = true)
    (ops : List (String × String × Bool)) (sem nm : String) (course : Course)
    (hfind : findCourse cd sem nm = some course)
    (helect : ¬ course.required = "지정")
    (st st1 st2 : SimState)
    (hst : st = runOps cd (initState cd gl) ops)
    (h1 : toggleCourse cd st sem nm (!(hasName (chosenD sem st) nm)) = (st1, ToggleOutcome.ok))
    (h2 : st2 = (toggleCourse cd st1 sem nm (!(hasName (chosenD sem st1) nm))).1) :
    (∀ s, (chosenD s st2).Perm (chosenD s st)) ∧
    (updateSummary cd st2).totalCredits = (updateSummary cd st).totalCredits ∧
    ∀ k, (alookup k st2.selectionGroups).map (fun gi => (gi.selected.length, gi.limit))
        = (alookup k st.selectionGroups).map (fun gi => (gi.selected.length, gi.limit)) := by
  have hinv : EngineInv cd gl st := by
    rw [hst]
    exact runOps_preserves_inv hok hnd hw ops (initState_inv cd gl hok hnd hw)
  have helQ : ElectiveQuota st := by
    rw [hst]
    exact @runOps_preserves_electiveQuota cd ops _ (initState_electiveQuota cd gl hnd hw)
  obtain ⟨hcd, hcsem, hcname⟩ := findCourse_props hfind
  have hkeys1 : st1.selectedCourses.map Prod.fst = st.selectedCourses.map Prod.fst := by
    have h1f : st1 = (toggleCourse cd st sem nm (!(hasName (chosenD sem st) nm))).1 := by
      rw [h1]
    rw [h1f]
    exact toggle_selected_keys cd st sem nm _
  have hkeys2 : st2.selectedCourses.map Prod.fst = st.selectedCourses.map Prod.fst := by
    rw [h2, toggle_selected_keys]
    exact hkeys1
  have hkeyS : (alookup sem st.selectedCourses).isSome = true := by
    have hp := chosen_key_present hok hinv.keysEq hcd
    rwa [hcsem] at hp
  obtain ⟨chv, hchv⟩ := Option.isSome_iff_exists.mp hkeyS
  have hchd : chosenD sem st = chv := by
    show (alookup sem st.selectedCourses).getD [] = chv
    rw [hchv]
    rfl
  suffices hsuf : (∀ s, (chosenD s st2).Perm (chosenD s st)) ∧
      ∀ k, (alookup k st2.selectionGroups).map (fun gi => (gi.selected.length, gi.limit))
        = (alookup k st.selectionGroups).map (fun gi => (gi.selected.length, gi.limit)) by
    refine ⟨hsuf.1, ?_, hsuf.2⟩
    rw [summary_total_of_keys cd st2 (by rw [hkeys2]; exact hinv.keysEq),
        summary_total_of_keys cd st hinv.keysEq]
    exact stateTotal_congr hkeys2 (by rw [hinv.keysEq]; exact semesterListOf_nodup cd) hsuf.1
  cases hb : hasName (chosenD sem st) nm with
  | true =>
    rw [hb, Bool.not_true] at h1
    obtain ⟨c0, hc0mem, hc0name⟩ := hasName_eq_true.mp hb
    have hc0cd := hinv.chosenMem sem c0 hc0mem
    have hc0eq : c0 = course := by
      apply eq_of_keys_nodup hnd hc0cd.1 hcd
      unfold courseKey
      rw [hc0cd.2, hc0name, hcsem, hcname]
    have hcmem : course ∈ chosenD sem st := hc0eq ▸ hc0mem
    cases hg : course.selection_group with
    | none =>
      rw [toggle_deselect_nogroup cd st sem nm course hfind hb hg] at h1
      rw [Prod.mk.injEq] at h1
      obtain ⟨h1a, -⟩ := h1
      have hsc1 : st1.selectedCourses = aset sem
          ((chosenD sem st).filter (fun c => !(decide (c.name = nm)))) st.selectedCourses := by
        rw [← h1a]
      have hsgs1 : st1.selectionGroups = st.selectionGroups := by
        rw [← h1a]
      have hch1 : chosenD sem st1
          = (chosenD sem st).filter (fun c => !(decide (c.name = nm))) := by
        show (alookup sem st1.selectedCourses).getD [] = _
        rw [hsc1, alookup_aset_self, hchv]
        rfl
      have hno1 : hasName (chosenD sem st1) nm = false := by
        apply hasName_eq_false.mpr
        intro e he
        rw [hch1] at he
        have hpe := List.of_mem_filter he
        simp only [Bool.not_eq_true', decide_eq_false_iff_not] at hpe
        exact hpe
      rw [hno1, Bool.not_false] at h2
      rw [toggle_select_nogroup cd st1 sem nm course hfind hno1 hg] at h2
      have hsc2 : st2.selectedCourses
          = aset sem (chosenD sem st1 ++ [course]) st1.selectedCourses := by
        rw [h2]
      have hsgs2 : st2.selectionGroups = st1.selectionGroups := by
        rw [h2]
      refine ⟨?_, ?_⟩
      · intro s
        by_cases hs : s = sem
        · rw [hs]
          have hchsem2 : chosenD sem st2
              = (chosenD sem st).filter (fun c => !(decide (c.name = nm))) ++ [course] := by
            show (alookup sem st2.selectedCourses).getD [] = _
            rw [hsc2, hch1, hsc1, aset_aset, alookup_aset_self, hchv]
            rfl
          rw [hchsem2]
          exact perm_filter_name_append hcmem hcname (hinv.chosenNames sem)
        · have heq : chosenD s st2 = chosenD s st := by
            show (alookup s st2.selectedCourses).getD []
              = (alookup s st.selectedCourses).getD []
            rw [hsc2, hsc1, aset_aset, alookup_aset_ne hs]
          rw [heq]
      · intro k
        rw [hsgs2, hsgs1]
    | some g =>
      cases hgi : alookup (sgKey sem g) st.selectionGroups with
      | none =>
        rw [toggle_deselect_unresolved cd st sem nm course g hfind hb hg hgi] at h1
        rw [Prod.mk.injEq] at h1
        obtain ⟨h1a, -⟩ := h1
        have hsc1 : st1.selectedCourses = aset sem
            ((chosenD sem st).filter (fun c => !(decide (c.name = nm)))) st.selectedCourses := by
          rw [← h1a]
        have hsgs1 : st1.selectionGroups = st.selectionGroups := by
          rw [← h1a]
        have hch1 : chosenD sem st1
            = (chosenD sem st).filter (fun c => !(decide (c.name = nm))) := by
          show (alookup sem st1.selectedCourses).getD [] = _
          rw [hsc1, alookup_aset_self, hchv]
          rfl
        have hno1 : hasName (chosenD sem st1) nm = false := by
          apply hasName_eq_false.mpr
          intro e he
          rw [hch1] at he
          have hpe := List.of_mem_filter he
          simp only [Bool.not_eq_true', decide_eq_false_iff_not] at hpe
          exact hpe
        have hgiN1 : alookup (sgKey sem g) st1.selectionGroups = none := by
          rw [hsgs1]
          exact hgi
        rw [hno1, Bool.not_false] at h2
        rw [toggle_select_unresolved cd st1 sem nm course g hfind hno1 hg hgiN1] at h2
        have hsc2 : st2.selectedCourses
            = aset sem (chosenD sem st1 ++ [course]) st1.selectedCourses := by
          rw [h2]
        have hsgs2 : st2.selectionGroups = st1.selectionGroups := by
          rw [h2]
        refine ⟨?_, ?_⟩
        · intro s
          by_cases hs : s = sem
          · rw [hs]
            have hchsem2 : chosenD sem st2
                = (chosenD sem st).filter (fun c => !(decide (c.name = nm))) ++ [course] := by
              show (alookup sem st2.selectedCourses).getD [] = _
              rw [hsc2, hch1, hsc1, aset_aset, alookup_aset_self, hchv]
              rfl
            rw [hchsem2]
            exact perm_filter_name_append hcmem hcname (hinv.chosenNames sem)
          · have heq : chosenD s st2 = chosenD s st := by
              show (alookup s st2.selectedCourses).getD []
                = (alookup s st.selectedCourses).getD []
              rw [hsc2, hsc1, aset_aset, alookup_aset_ne hs]
            rw [heq]
        · intro k
          rw [hsgs2, hsgs1]
      | some gi =>
        rw [toggle_deselect_resolved cd st sem nm course g gi hfind hb hg hgi] at h1
        rw [Prod.mk.injEq] at h1
        obtain ⟨h1a, -⟩ := h1
        have hsc1 : st1.selectedCourses = aset sem
            ((chosenD sem st).filter (fun c => !(decide (c.name = nm)))) st.selectedCourses := by
          rw [← h1a]
        have hsgs1 : st1.selectionGroups = aset (sgKey sem g)
            ({ gi with selected := gi.selected.filter (fun c => !(decide (c.name = nm))) })
            st.selectionGroups := by
          rw [← h1a]
        have hch1 : chosenD sem st1
            = (chosenD sem st).filter (fun c => !(decide (c.name = nm))) := by
          show (alookup sem st1.selectedCourses).getD [] = _
          rw [hsc1, alookup_aset_self, hchv]
          rfl
        have hno1 : hasName (chosenD sem st1) nm = false := by
          apply hasName_eq_false.mpr
          intro e he
          rw [hch1] at he
          have hpe := List.of_mem_filter he
          simp only [Bool.not_eq_true', decide_eq_false_iff_not] at hpe
          exact hpe
        have hgisem : gi.semester = sem := by
          obtain ⟨li, hli, hsemli, -, -⟩ := hinv.sgStatic _ gi hgi
          have hli2 : alookup (sgKey course.semester g) gl = some li := by rwa [hcsem]
          rw [hsemli, glWF_spec hw hcd hg hli2, hcsem]
        have hcsel : course ∈ gi.selected := by
          rw [hinv.sgSel _ gi hgi, hgisem]
          apply List.mem_filter.mpr
          refine ⟨hcmem, ?_⟩
          have hm := memB_self hg
          rwa [hcsem] at hm
        have hseln : (gi.selected.map Course.name).Nodup := by
          rw [hinv.sgSel _ gi hgi, hgisem]
          exact List.Nodup.sublist
            (List.Sublist.map Course.name (List.filter_sublist _)) (hinv.chosenNames sem)
        have hlim : gi.selected.length ≤ gi.limit := helQ _ gi hgi ⟨course, hcsel, helect⟩
        have hflt : (gi.selected.filter (fun c => !(decide (c.name = nm)))).length
            < gi.limit := by
          have h5 : (gi.selected.filter (fun c => !(decide (c.name = nm)))).length
              < gi.selected.length := by
            apply length_filter_lt_of_mem hcsel
            simp [hcname]
          omega
        have hgi1 : alookup (sgKey sem g) st1.selectionGroups
            = some ({ gi with
                selected := gi.selected.filter (fun c => !(decide (c.name = nm))) }) := by
          rw [hsgs1, alookup_aset_self, hgi]
          rfl
        rw [hno1, Bool.not_false] at h2
        rw [toggle_select_resolved_notfull cd st1 sem nm course g _ hfind hno1 hg hgi1 hflt]
          at h2
        have hsc2 : st2.selectedCourses
            = aset sem (chosenD sem st1 ++ [course]) st1.selectedCourses := by
          rw [h2]
        refine ⟨?_, ?_⟩
        · intro s
          by_cases hs : s = sem
          · rw [hs]
            have hchsem2 : chosenD sem st2
                = (chosenD sem st).filter (fun c => !(decide (c.name = nm))) ++ [course] := by
              show (alookup sem st2.selectedCourses).getD [] = _
              rw [hsc2, hch1, hsc1, aset_aset, alookup_aset_self, hchv]
              rfl
            rw [hchsem2]
            exact perm_filter_name_append hcmem hcname (hinv.chosenNames sem)
          · have heq : chosenD s st2 = chosenD s st := by
              show (alookup s st2.selectedCourses).getD []
                = (alookup s st.selectedCourses).getD []
              rw [hsc2, hsc1, aset_aset, alookup_aset_ne hs]
            rw [heq]
        · intro k
          by_cases hk : k = sgKey sem g
          · rw [hk]
            have hlk2 : alookup (sgKey sem g) st2.selectionGroups
                = some ({ gi with selected :=
                    gi.selected.filter (fun c => !(decide (c.name = nm))) ++ [course] }) := by
              rw [h2]
              show alookup _ (aset (sgKey sem g) _ st1.selectionGroups) = _
              rw [alookup_aset_self, hgi1]
              rfl
            rw [hlk2, hgi]
            show some ((gi.selected.filter (fun c => !(decide (c.name = nm)))
              ++ [course]).length, gi.limit) = some (gi.selected.length, gi.limit)
            rw [(perm_filter_name_append hcsel hcname hseln).length_eq]
          · have hlk2 : alookup k st2.selectionGroups = alookup k st.selectionGroups := by
              rw [h2]
              show alookup k (aset (sgKey sem g) _ st1.selectionGroups) = _
              rw [alookup_aset_ne hk, hsgs1, alookup_aset_ne hk]
            rw [hlk2]
  | false =>
    rw [hb, Bool.not_false] at h1
    have hnmnot : ∀ e ∈ chosenD sem st, ¬ e.name = nm := hasName_eq_false.mp hb
    cases hg : course.selection_group with
    | none =>
      rw [toggle_select_nogroup cd st sem nm course hfind hb hg] at h1
      rw [Prod.mk.injEq] at h1
      obtain ⟨h1a, -⟩ := h1
      have hsc1 : st1.selectedCourses
          = aset sem (chosenD sem st ++ [course]) st.selectedCourses := by
        rw [← h1a]
      have hsgs1 : st1.selectionGroups = st.selectionGroups := by
        rw [← h1a]
      have hch1 : chosenD sem st1 = chosenD sem st ++ [course] := by
        show (alookup sem st1.selectedCourses).getD [] = _
        rw [hsc1, alookup_aset_self, hchv]
        rfl
      have hsel1 : hasName (chosenD sem st1) nm = true := by
        rw [hch1, hasName_append]
        have hone : hasName [course] nm = true :=
          hasName_eq_true.mpr ⟨course, List.mem_singleton_self course, hcname⟩
        rw [hone, Bool.or_true]
      rw [hsel1, Bool.not_true] at h2
      rw [toggle_deselect_nogroup cd st1 sem nm course hfind hsel1 hg] at h2
      have hfilt : (chosenD sem st1).filter (fun c => !(decide (c.name = nm)))
          = chosenD sem st := by
        rw [hch1, List.filter_append, filter_name_eq_self hnmnot]
        have hsing : ([course].filter (fun c => !(decide (c.name = nm)))) = [] := by
          simp [hcname]
        rw [hsing, List.append_nil]
      have hsc2 : st2.selectedCourses = st.selectedCourses := by
        rw [h2]
        show aset sem ((chosenD sem st1).filter (fun c => !(decide (c.name = nm))))
          st1.selectedCourses = _
        rw [hfilt, hsc1, aset_aset]
        apply aset_of_alookup_eq
        rw [hchv, hchd]
      have hsgs2 : st2.selectionGroups = st.selectionGroups := by
        rw [h2]
        show st1.selectionGroups = _
        exact hsgs1
      refine ⟨?_, ?_⟩
      · intro s
        have heq : chosenD s st2 = chosenD s st := by
          show (alookup s st2.selectedCourses).getD []
            = (alookup s st.selectedCourses).getD []
          rw [hsc2]
        rw [heq]
      · intro k
        rw [hsgs2]
    | some g =>
      cases hgi : alookup (sgKey sem g) st.selectionGroups with
      | none =>
        rw [toggle_select_unresolved cd st sem nm course g hfind hb hg hgi] at h1
        rw [Prod.mk.injEq] at h1
        obtain ⟨h1a, -⟩ := h1
        have hsc1 : st1.selectedCourses
            = aset sem (chosenD sem st ++ [course]) st.selectedCourses := by
          rw [← h1a]
        have hsgs1 : st1.selectionGroups = st.selectionGroups := by
          rw [← h1a]
        have hch1 : chosenD sem st1 = chosenD sem st ++ [course] := by
          show (alookup sem st1.selectedCourses).getD [] = _
          rw [hsc1, alookup_aset_self, hchv]
          rfl
        have hsel1 : hasName (chosenD sem st1) nm = true := by
          rw [hch1, hasName_append]
          have hone : hasName [course] nm = true :=
            hasName_eq_true.mpr ⟨course, List.mem_singleton_self course, hcname⟩
          rw [hone, Bool.or_true]
        have hgiN1 : alookup (sgKey sem g) st1.selectionGroups = none := by
          rw [hsgs1]
          exact hgi
        rw [hsel1, Bool.not_true] at h2
        rw [toggle_deselect_unresolved cd st1 sem nm course g hfind hsel1 hg hgiN1] at h2
        have hfilt : (chosenD sem st1).filter (fun c => !(decide (c.name = nm)))
            = chosenD sem st := by
          rw [hch1, List.filter_append, filter_name_eq_self hnmnot]
          have hsing : ([course].filter (fun c => !(decide (c.name = nm)))) = [] := by
            simp [hcname]
          rw [hsing, List.append_nil]
        have hsc2 : st2.selectedCourses = st.selectedCourses := by
          rw [h2]
          show aset sem ((chosenD sem st1).filter (fun c => !(decide (c.name = nm))))
            st1.selectedCourses = _
          rw [hfilt, hsc1, aset_aset]
          apply aset_of_alookup_eq
          rw [hchv, hchd]
        have hsgs2 : st2.selectionGroups = st.selectionGroups := by
          rw [h2]
          show st1.selectionGroups = _
          exact hsgs1
        refine ⟨?_, ?_⟩
        · intro s
          have heq : chosenD s st2 = chosenD s st := by
            show (alookup s st2.selectedCourses).getD []
              = (alookup s st.selectedCourses).getD []
            rw [hsc2]
          rw [heq]
        · intro k
          rw [hsgs2]
      | some gi =>
        by_cases hfull : gi.limit ≤ gi.selected.length
        · rw [toggle_select_resolved_full cd st sem nm course g gi hfind hb hg hgi hfull]
            at h1
          rw [Prod.mk.injEq] at h1
          exact ToggleOutcome.noConfusion h1.2
        · have hroom := Nat.lt_of_not_le hfull
          rw [toggle_select_resolved_notfull cd st sem nm course g gi hfind hb hg hgi hroom]
            at h1
          rw [Prod.mk.injEq] at h1
          obtain ⟨h1a, -⟩ := h1
          have hsc1 : st1.selectedCourses
              = aset sem (chosenD sem st ++ [course]) st.selectedCourses := by
            rw [← h1a]
          have hsgs1 : st1.selectionGroups = aset (sgKey sem g)
              ({ gi with selected := gi.selected ++ [course] }) st.selectionGroups := by
            rw [← h1a]
          have hch1 : chosenD sem st1 = chosenD sem st ++ [course] := by
            show (alookup sem st1.selectedCourses).getD [] = _
            rw [hsc1, alookup_aset_self, hchv]
            rfl
          have hsel1 : hasName (chosenD sem st1) nm = true := by
            rw [hch1, hasName_append]
            have hone : hasName [course] nm = true :=
              hasName_eq_true.mpr ⟨course, List.mem_singleton_self course, hcname⟩
            rw [hone, Bool.or_true]
          have hgi1 : alookup (sgKey sem g) st1.selectionGroups
              = some ({ gi with selected := gi.selected ++ [course] }) := by
            rw [hsgs1, alookup_aset_self, hgi]
            rfl
          rw [hsel1, Bool.not_true] at h2
          rw [toggle_deselect_resolved cd st1 sem nm course g _ hfind hsel1 hg hgi1] at h2
          have hgisem : gi.semester = sem := by
            obtain ⟨li, hli, hsemli, -, -⟩ := hinv.sgStatic _ gi hgi
            have hli2 : alookup (sgKey course.semester g) gl = some li := by rwa [hcsem]
            rw [hsemli, glWF_spec hw hcd hg hli2, hcsem]
          have hselnm : ∀ e ∈ gi.selected, ¬ e.name = nm := by
            intro e he
            rw [hinv.sgSel _ gi hgi, hgisem] at he
            exact hnmnot e (List.mem_filter.mp he).1
          have hfilt : (chosenD sem st1).filter (fun c => !(decide (c.name = nm)))
              = chosenD sem st := by
            rw [hch1, List.filter_append, filter_name_eq_self hnmnot]
            have hsing : ([course].filter (fun c => !(decide (c.name = nm)))) = [] := by
              simp [hcname]
            rw [hsing, List.append_nil]
          have hsc2 : st2.selectedCourses = st.selectedCourses := by
            rw [h2]
            show aset sem ((chosenD sem st1).filter (fun c => !(decide (c.name = nm))))
              st1.selectedCourses = _
            rw [hfilt, hsc1, aset_aset]
            apply aset_of_alookup_eq
            rw [hchv, hchd]
          have hsgs2 : st2.selectionGroups = st.selectionGroups := by
            rw [h2]
            show aset (sgKey sem g)
              ({ gi with selected :=
                (gi.selected ++ [course]).filter (fun c => !(decide (c.name = nm))) })
              st1.selectionGroups = _
            rw [hsgs1, aset_aset]
            have hgval : ({ gi with selected :=
                (gi.selected ++ [course]).filter (fun c => !(decide (c.name = nm))) }
                  : GroupInfo) = gi := by
              have h5 : (gi.selected ++ [course]).filter (fun c => !(decide (c.name = nm)))
                  = gi.selected := by
                rw [List.filter_append, filter_name_eq_self hselnm]
                have hsing : ([course].filter (fun c => !(decide (c.name = nm)))) = [] := by
                  simp [hcname]
                rw [hsing, List.append_nil]
              rw [h5]
            rw [hgval]
            exact aset_of_alookup_eq hgi
          refine ⟨?_, ?_⟩
          · intro s
            have heq : chosenD s st2 = chosenD s st := by
              show (alookup s st2.selectedCourses).getD []
                = (alookup s st.selectedCourses).getD []
              rw [hsc2]
            rw [heq]
          · intro k
            rw [hsgs2]

/-- Concrete reachable state for the C7 witness: the initial `cdA` state. -/
def stW0 : SimState := runOps cdA (initState cdA glA) []

/-- First toggle of `e1` on `stW0`, with the UI checkbox value. -/
def stW1 : SimState :=
  (toggleCourse cdA stW0 "1" "e1" (!(hasName (chosenD "1" stW0) "e1"))).1

/-- Second toggle of `e1`, again with the UI checkbox value. -/
def stW2 : SimState :=
  (toggleCourse cdA stW1 "1" "e1" (!(hasName (chosenD "1" stW1) "e1"))).1

/-- Witness for C7 on the concrete catalog `cdA`. -/
theorem toggle_twice_reversible_witness :
    (∀ s, (chosenD s stW2).Perm (chosenD s stW0)) ∧
    (updateSummary cdA stW2).totalCredits = (updateSummary cdA stW0).totalCredits ∧
    ∀ k, (alookup k stW2.selectionGroups).map (fun gi => (gi.selected.length, gi.limit))
        = (alookup k stW0.selectionGroups).map (fun gi => (gi.selected.length, gi.limit)) :=
  toggle_twice_reversible cdA glA (by decide) (by decide) (by decide) []
    "1" "e1" (exCourse "1" "e1" 2 "" (some "G") (some 1)) (by decide) (by decide)
    stW0 stW1 stW2 rfl (by decide) rfl

end ChooseSim
